import Mathlib

/-!
Verification of the rusci-render real-time rendering / synthesis core.

The Rust sources (crates osci-core and osci-synth) are shallowly embedded:
`f32`/`f64` values are modelled as exact rationals `ℚ`, machine `u32` state as
`Nat` masked to 32 bits, fallible or potentially non-terminating loops as
fuel-indexed functions returning `Option`, and trait objects
(`Box<dyn Shape>`, `Box<dyn EffectApplication>`) as records of their
observable methods.  Transcendental float functions (`sin`, `cos`, `exp`,
`powf`) are not exactly computable, so the embedding is parametrised by a
record `FloatFns` carrying them; code paths that never call a transcendental
function are independent of that parameter.
-/

namespace Osci

/-- Record of the transcendental float functions used by the embedded code
(`f32::sin`, `cos`, `exp`, `powf` and the constant π).  The embedding is
parametric in these; rational-only code paths never consult them. -/
structure FloatFns where
  sin : ℚ → ℚ
  cos : ℚ → ℚ
  exp : ℚ → ℚ
  powf : ℚ → ℚ → ℚ
  pi : ℚ

/-- A trivial instantiation of `FloatFns` (all functions zero), used to state
closed counterexamples on code paths that do not consult the record. -/
def zeroFns : FloatFns :=
  { sin := fun _ => 0, cos := fun _ => 0, exp := fun _ => 0
    powf := fun _ _ => 0, pi := 0 }

/-! ### Point (src/crates/osci-core/src/point.rs)

Six `f32` channels: x,y,z spatial plus r,g,b colour. -/

/-- `osci::Point`: six-channel vector (x,y,z spatial + r,g,b colour). -/
structure Point where
  x : ℚ
  y : ℚ
  z : ℚ
  r : ℚ
  g : ℚ
  b : ℚ
deriving DecidableEq

namespace Point

/-- `Point::ZERO`. -/
def zero : Point := ⟨0, 0, 0, 0, 0, 0⟩

/-- `Point::new(x, y, z)` — legacy constructor, z replicated to r,g,b. -/
def new (x y z : ℚ) : Point := ⟨x, y, z, z, z, z⟩

/-- `Point::with_rgb`. -/
def with_rgb (x y z r g b : ℚ) : Point := ⟨x, y, z, r, g, b⟩

/-- `impl Add for Point` — componentwise on all six channels. -/
def add (p q : Point) : Point :=
  with_rgb (p.x + q.x) (p.y + q.y) (p.z + q.z) (p.r + q.r) (p.g + q.g) (p.b + q.b)

/-- `impl Add<f32> for Point` — scalar adds to x,y,z only. -/
def addScalar (p : Point) (s : ℚ) : Point :=
  with_rgb (p.x + s) (p.y + s) (p.z + s) p.r p.g p.b

/-- `impl Sub for Point` — componentwise on all six channels. -/
def sub (p q : Point) : Point :=
  with_rgb (p.x - q.x) (p.y - q.y) (p.z - q.z) (p.r - q.r) (p.g - q.g) (p.b - q.b)

/-- `impl Sub<f32> for Point` — scalar subtracts from x,y,z only. -/
def subScalar (p : Point) (s : ℚ) : Point :=
  with_rgb (p.x - s) (p.y - s) (p.z - s) p.r p.g p.b

/-- `impl Neg for Point` — negates x,y,z; r,g,b are passed through unchanged. -/
def neg (p : Point) : Point :=
  with_rgb (-p.x) (-p.y) (-p.z) p.r p.g p.b

/-- `impl Mul for Point` — element-wise product on all six channels. -/
def mul (p q : Point) : Point :=
  with_rgb (p.x * q.x) (p.y * q.y) (p.z * q.z) (p.r * q.r) (p.g * q.g) (p.b * q.b)

/-- `impl Mul<f32> for Point` — scalar multiplies x,y,z only. -/
def mulScalar (p : Point) (s : ℚ) : Point :=
  with_rgb (p.x * s) (p.y * s) (p.z * s) p.r p.g p.b

/-- `impl Div<f32> for Point` — scalar divides x,y,z only. -/
def divScalar (p : Point) (s : ℚ) : Point :=
  with_rgb (p.x / s) (p.y / s) (p.z / s) p.r p.g p.b

/-- `impl MulAssign<f32> for Point` — compound scalar multiply touches ALL six
channels (the functional result of `p *= s`). -/
def mulAssignScalar (p : Point) (s : ℚ) : Point :=
  ⟨p.x * s, p.y * s, p.z * s, p.r * s, p.g * s, p.b * s⟩

/-- `impl DivAssign<f32> for Point` — compound scalar divide touches ALL six
channels (the functional result of `p /= s`). -/
def divAssignScalar (p : Point) (s : ℚ) : Point :=
  ⟨p.x / s, p.y / s, p.z / s, p.r / s, p.g / s, p.b / s⟩

end Point

/-! ### Line (src/crates/osci-core/src/shape.rs) -/

/-- `osci_core::shape::Line`: a segment between two 3-D points.  The cached
length field is omitted: it is `None` until computed and never observable
through `next_vector`. -/
structure Line where
  x1 : ℚ
  y1 : ℚ
  z1 : ℚ
  x2 : ℚ
  y2 : ℚ
  z2 : ℚ
deriving DecidableEq

namespace Line

/-- `impl Shape for Line — fn next_vector`: linear interpolation of the two
endpoints at the given drawing progress (`Point::new` replicates z to r,g,b). -/
def next_vector (l : Line) (t : ℚ) : Point :=
  Point.new (l.x1 + (l.x2 - l.x1) * t) (l.y1 + (l.y2 - l.y1) * t)
    (l.z1 + (l.z2 - l.z1) * t)

end Line

/-! ### Envelope (src/crates/osci-core/src/envelope.rs) -/

/-- `EnvCurveType` — curve type for envelope segments. -/
inductive EnvCurveType where
  | Empty
  | Numerical (c : ℚ)
  | Step
  | Linear
  | Exponential
  | Sine
  | Welch
deriving DecidableEq

/-- `EnvCurve` — a single envelope curve specification. -/
structure EnvCurve where
  curve_type : EnvCurveType
deriving DecidableEq

/-- `EnvCurve::linear()`. -/
def EnvCurve.linear : EnvCurve := ⟨EnvCurveType.Linear⟩

/-- `EnvCurve::numerical(curve)`. -/
def EnvCurve.numerical (c : ℚ) : EnvCurve := ⟨EnvCurveType.Numerical c⟩

/-- `Env` — a segmented envelope specification. -/
structure Env where
  levels : List ℚ
  times : List ℚ
  curves : List EnvCurve
  release_node : Int
  loop_node : Int

/-- `Env::new` — stores the fields as given; no validation of the
`levels.len() == times.len() + 1` well-formedness condition is performed. -/
def Env.new (levels times : List ℚ) (curves : List EnvCurve)
    (release_node loop_node : Int) : Env :=
  ⟨levels, times, curves, release_node, loop_node⟩

/-- `Env::adsr` — standard ADSR envelope (release node at index 2). -/
def Env.adsr (attack_time decay_time sustain_level release_time level : ℚ)
    (curve : ℚ) : Env :=
  Env.new [0, level, level * sustain_level, 0]
    [attack_time, decay_time, release_time]
    (List.replicate 3 (EnvCurve.numerical curve)) 2 (-1)

/-- `linlin` — linear interpolation helper. -/
def linlin (input in_low in_high out_low out_high : ℚ) : ℚ :=
  (input - in_low) * (out_high - out_low) / (in_high - in_low) + out_low

/-- `linexp` — linear-to-exponential mapping helper. -/
def linexp (T : FloatFns) (input in_low in_high out_low out_high : ℚ) : ℚ :=
  let out_ratio := out_high / out_low
  let recip_in_range := 1 / (in_high - in_low)
  let neg_in_low_over := recip_in_range * (-in_low)
  out_low * T.powf out_ratio (input * recip_in_range + neg_in_low_over)

/-- `linsin` — linear-to-sine (cosine ease) mapping helper. -/
def linsin (T : FloatFns) (input in_low in_high out_low out_high : ℚ) : ℚ :=
  let in_range := in_high - in_low
  let out_range := out_high - out_low
  let in_phase := (input - in_low) * T.pi / in_range + T.pi
  let cos_in_phase := T.cos in_phase * (1 / 2) + 1 / 2
  cos_in_phase * out_range + out_low

/-- `linwelch` — linear-to-Welch mapping helper. -/
def linwelch (T : FloatFns) (input in_low in_high out_low out_high : ℚ) : ℚ :=
  let in_range := in_high - in_low
  let out_range := out_high - out_low
  let in_pos := (input - in_low) / in_range
  let half_pi := T.pi / 2
  if out_low < out_high then
    out_low + out_range * T.sin (half_pi * in_pos)
  else
    out_high - out_range * T.sin (half_pi - half_pi * in_pos)

/-- The stage-accumulation `while` loop of `Env::lookup`: starting from
`(last_time, stage_time, stage_index) = (last, stage, idx)` it walks the
remaining `times`, accumulating while `stage_time < time` (the
`stage_index < num_times` bound is the structural recursion on the list).
Returns the final `(last_time, stage_time, stage_index)`. -/
def stageSearch (time : ℚ) : List ℚ → ℚ → ℚ → Nat → ℚ × ℚ × Nat
  | [], last, stage, idx => (last, stage, idx)
  | t :: rest, last, stage, idx =>
    if stage < time then stageSearch time rest stage (stage + t) (idx + 1)
    else (last, stage, idx)

/-- Evaluate the bracketing stage of `Env::lookup` per its curve type
(the `match curve.curve_type` at the end of `lookup`). -/
def curveValue (T : FloatFns) (curve : EnvCurve) (time last_time stage_time
    level0 level1 : ℚ) : ℚ :=
  match curve.curve_type with
  | EnvCurveType.Linear => linlin time last_time stage_time level0 level1
  | EnvCurveType.Numerical curve_value =>
    if |curve_value| ≤ 1 / 1000 then
      linlin time last_time stage_time level0 level1
    else
      let pos := (time - last_time) / (stage_time - last_time)
      let denom := 1 - T.exp curve_value
      let numer := 1 - T.exp (pos * curve_value)
      level0 + (level1 - level0) * (numer / denom)
  | EnvCurveType.Sine => linsin T time last_time stage_time level0 level1
  | EnvCurveType.Exponential => linexp T time last_time stage_time level0 level1
  | EnvCurveType.Welch => linwelch T time last_time stage_time level0 level1
  | EnvCurveType.Step => level1
  | EnvCurveType.Empty => level1

/-- `Env::lookup(time)` — envelope amplitude at a given time.  List indexing
(`levels[..]`, `curves[..]`) is rendered with `getD`/`getLastD` defaults; the
companion `Env.lookupChecked` makes every index fallible to analyse
out-of-bounds behaviour. -/
def Env.lookup (T : FloatFns) (env : Env) (time : ℚ) : ℚ :=
  let num_times := env.times.length
  let num_levels := env.levels.length
  if num_levels < 1 then 0
  else if time ≤ 0 ∨ num_times = 0 then env.levels.getD 0 0
  else
    let r := stageSearch time env.times 0 0 0
    let last_time := r.1
    let stage_time := r.2.1
    let stage_index := r.2.2
    if stage_index > num_times then env.levels.getD (num_levels - 1) 0
    else
      let level0 := env.levels.getD (stage_index - 1) 0
      let level1 := env.levels.getD stage_index 0
      let curve_index := (stage_index - 1) % max env.curves.length 1
      let curve := env.curves.getD curve_index EnvCurve.linear
      if last_time - stage_time = 0 then level1
      else curveValue T curve time last_time stage_time level0 level1

/-- `Env::lookup` with every Rust slice access (`levels[0]`,
`levels[num_levels-1]`, `levels[stage_index-1]`, `levels[stage_index]`,
`curves[curve_index]`) rendered as a fallible `get?`: the result is `none`
exactly when the Rust code would index out of bounds and panic.  The
`times[stage_index]` access of the loop is structurally in bounds (the loop
condition includes `stage_index < num_times`). -/
def Env.lookupChecked (T : FloatFns) (env : Env) (time : ℚ) : Option ℚ :=
  let num_times := env.times.length
  let num_levels := env.levels.length
  if num_levels < 1 then some 0
  else if time ≤ 0 ∨ num_times = 0 then env.levels.get? 0
  else
    let r := stageSearch time env.times 0 0 0
    let last_time := r.1
    let stage_time := r.2.1
    let stage_index := r.2.2
    if stage_index > num_times then env.levels.get? (num_levels - 1)
    else
      match env.levels.get? (stage_index - 1), env.levels.get? stage_index with
      | some level0, some level1 =>
        let curve_index := (stage_index - 1) % max env.curves.length 1
        match env.curves.get? curve_index with
        | some curve =>
          if last_time - stage_time = 0 then some level1
          else some (curveValue T curve time last_time stage_time level0 level1)
        | none => none
      | _, _ => none

/-! ### Effect parameters and animation (src/crates/osci-core/src/parameter.rs) -/

/-- `SMOOTHING_SPEED_MIN = 0.00001`. -/
def SMOOTHING_SPEED_MIN : ℚ := 1 / 100000

/-- `EFFECT_SNAP_THRESHOLD = 1e-4`. -/
def EFFECT_SNAP_THRESHOLD : ℚ := 1 / 10000

/-- `osci::LfoType` — LFO waveform types. -/
inductive LfoType where
  | Static
  | Sine
  | Square
  | Seesaw
  | Triangle
  | Sawtooth
  | ReverseSawtooth
  | Noise
deriving DecidableEq

/-- `osci::EffectParameter`.  Strings (`id`, `name`, `description`) and fields
never read by `animate_parameter` or `lfo_range` (`default_value`, `step`,
`lfo_enabled`) are omitted; `rng_state : u32` becomes a `Nat` kept below
`2^32`. -/
structure EffectParameter where
  value : ℚ
  min : ℚ
  max : ℚ
  lfo_type : LfoType
  lfo_rate : ℚ
  lfo_start_percent : ℚ
  lfo_end_percent : ℚ
  smooth_value_change : ℚ
  phase : ℚ
  rng_state : Nat
  sidechain_enabled : Bool

/-- `EffectParameter::lfo_range` — the LFO range in parameter units, derived
from `[min, max]` scaled by the clamped start/end percentages. -/
def EffectParameter.lfo_range (p : EffectParameter) : ℚ × ℚ :=
  let range := p.max - p.min
  let lfo_min := p.min + (Min.min (Max.max (p.lfo_start_percent / 100) 0) 1) * range
  let lfo_max := p.min + (Min.min (Max.max (p.lfo_end_percent / 100) 0) 1) * range
  (lfo_min, lfo_max)

/-- One step of the 32-bit xorshift PRNG of `animate_parameter`'s Noise path:
`x ^= x << 13; x ^= x >> 17; x ^= x << 5`, with the `u32` wrap-around of the
left shifts made explicit by masking to 32 bits. -/
def xorshift32 (x : Nat) : Nat :=
  let a := x ^^^ ((x <<< 13) &&& 0xFFFFFFFF)
  let b := a ^^^ (a >>> 17)
  b ^^^ ((b <<< 5) &&& 0xFFFFFFFF)

/-- Iterated `xorshift32` (the PRNG state after `n` advances). -/
def xorshiftN : Nat → Nat → Nat
  | 0, x => x
  | n + 1, x => xorshiftN n (xorshift32 x)

/-- The per-sample loop of `animate_parameter`'s Static path, generating the
freshly written `output` prefix of the block and the final `current_value`.
`i` is the running sample index (used for the sidechain `volume_buffer.get(i)`
access), the list recursion counts the remaining samples of the block. -/
def staticLoop (use_sidechain : Bool) (volume_buffer : Option (List ℚ))
    (range pmin static_target : ℚ) (instant : Bool) (weight : ℚ) :
    Nat → Nat → ℚ → List ℚ × ℚ
  | _, 0, current => ([], current)
  | i, k + 1, current =>
    let target :=
      if use_sidechain then
        let volume := ((volume_buffer.bind (fun buf => buf.get? i)).getD 1)
        volume * range + pmin
      else static_target
    let current' :=
      if instant then target
      else if |current - target| < EFFECT_SNAP_THRESHOLD then target
      else current + weight * (target - current)
    let r := staticLoop use_sidechain volume_buffer range pmin static_target
      instant weight (i + 1) k current'
    (current' :: r.1, r.2)

/-- The per-sample loop of `animate_parameter`'s Noise path: advance the
xorshift PRNG once per sample, map the low 24 bits of the state through
`/ 16777215.0` and scale into the LFO range.  Returns the generated block and
the final PRNG state. -/
def noiseLoop (lfo_range lfo_min : ℚ) : Nat → Nat → List ℚ × Nat
  | 0, st => ([], st)
  | k + 1, st =>
    let st' := xorshift32 st
    let rnd := ((st' &&& 0xFFFFFF : Nat) : ℚ) / 16777215
    let r := noiseLoop lfo_range lfo_min k st'
    ((rnd * lfo_range + lfo_min) :: r.1, r.2)

/-- The phase-ramp loop of `animate_parameter`'s periodic-LFO path: advance
`phase` by `phase_inc` each sample, wrapping at 1.0, and record the phases.
Returns the phase block and the final phase. -/
def phaseRamp (phase_inc : ℚ) : Nat → ℚ → List ℚ × ℚ
  | 0, phase => ([], phase)
  | k + 1, phase =>
    let phase1 := phase + phase_inc
    let phase2 := if phase1 ≥ 1 then phase1 - 1 else phase1
    let r := phaseRamp phase_inc k phase2
    (phase2 :: r.1, r.2)

/-- Map one recorded phase to the output value of a periodic LFO waveform
(the per-waveform `match` of `animate_parameter`; the `_` fallback writes the
static `param.value`). -/
def lfoWave (T : FloatFns) (lfo_type : LfoType) (lfo_range lfo_min lfo_max
    value : ℚ) (p : ℚ) : ℚ :=
  match lfo_type with
  | LfoType.Sine => (T.sin (p * (2 * T.pi) - T.pi) * (1 / 2) + 1 / 2) * lfo_range + lfo_min
  | LfoType.Square => if p < 1 / 2 then lfo_max else lfo_min
  | LfoType.Seesaw =>
    let tri := if p < 1 / 2 then p * 2 else (1 - p) * 2
    let x := min (max tri 0) 1
    let soft := x * x * (3 - 2 * x)
    soft * lfo_range + lfo_min
  | LfoType.Triangle => (1 - |2 * p - 1|) * lfo_range + lfo_min
  | LfoType.Sawtooth => p * lfo_range + lfo_min
  | LfoType.ReverseSawtooth => (1 - p) * lfo_range + lfo_min
  | _ => value

/-- Result of `animate_parameter` over one block: updated parameter state,
updated `current_value`, and the `output` slice contents (which the function
overwrites in full). -/
structure AnimateResult where
  param : EffectParameter
  current : ℚ
  output : List ℚ

/-- `animate_parameter(param, output, sample_rate, current_value,
volume_buffer)` over a block of `block_size` samples.  The `output` slice is
modelled by its generated contents (every entry below `block_size` is
overwritten on every path).  The final `output[block_size - 1]` read of the
LFO path is rendered with `getD` (for `block_size = 0` the Rust code would
panic there). -/
def animate_parameter (T : FloatFns) (param : EffectParameter)
    (block_size : Nat) (sample_rate : ℚ) (current_value : ℚ)
    (volume_buffer : Option (List ℚ)) : AnimateResult :=
  let range := param.max - param.min
  if param.lfo_type = LfoType.Static then
    let smooth_raw := param.smooth_value_change
    let instant : Bool := smooth_raw ≥ 1
    let weight :=
      if instant then 1
      else
        let svc := min (max smooth_raw SMOOTHING_SPEED_MIN) 1
        svc * (192000 / sample_rate) * (1 / 1000)
    let use_sidechain := param.sidechain_enabled
    let static_target := if use_sidechain then 0 else param.value
    let r := staticLoop use_sidechain volume_buffer range param.min
      static_target instant weight 0 block_size current_value
    ⟨param, r.2, r.1⟩
  else
    let lr := param.lfo_range
    let lfo_min := lr.1
    let lfo_max := lr.2
    let lfo_range := lfo_max - lfo_min
    let phase_inc := if sample_rate > 0 then param.lfo_rate / sample_rate else 0
    match param.lfo_type with
    | LfoType.Noise =>
      let r := noiseLoop lfo_range lfo_min block_size param.rng_state
      ⟨{ param with rng_state := r.2 }, r.1.getD (block_size - 1) 0, r.1⟩
    | _ =>
      let ramp := phaseRamp phase_inc block_size param.phase
      let out := ramp.1.map
        (lfoWave T param.lfo_type lfo_range lfo_min lfo_max param.value)
      ⟨{ param with phase := ramp.2 }, out.getD (block_size - 1) 0, out⟩

/-! ### Shapes as trait objects and the renderer
(src/crates/osci-core/src/shape.rs, src/crates/osci-synth/src/renderer.rs) -/

/-- A `Box<dyn Shape>` as seen by the renderer: its cached scalar `length()`
and its `next_vector(progress)` sampling function.  Concrete shapes
(`Line`, `PointShape`, …) instantiate this record; a `PointShape` has
`length = 0`. -/
structure MShape where
  length : ℚ
  sample : ℚ → Point

/-- `osci_core::shape::total_length` — sum of the shapes' lengths. -/
def total_length (shapes : List MShape) : ℚ :=
  (shapes.map MShape.length).sum

/-- The `length()` of `shapes[i]` (`0` when out of bounds; every reachable
access in the embedded loops is in bounds because indices wrap below
`shapes.len()`). -/
def shapeLengthAt (shapes : List MShape) (i : Nat) : ℚ :=
  ((shapes.get? i).map MShape.length).getD 0

/-- `ShapeRenderer` cursor state.  `sample_rate` and `frequency` are carried
by the voice embedding (which drives the renderer through
`next_vector_with_increment`), so only the drawing state is kept here. -/
structure ShapeRenderer where
  shapes : List MShape
  shapes_length : ℚ
  current_shape : Nat
  shape_drawn : ℚ
  frame_drawn : ℚ

namespace ShapeRenderer

/-- `ShapeRenderer::set_shapes` — replace the shapes, cache the new total
length and reset the drawing cursor. -/
def set_shapes (r : ShapeRenderer) (shapes : List MShape) : ShapeRenderer :=
  { r with
    shapes := shapes
    shapes_length := total_length shapes
    current_shape := 0
    shape_drawn := 0
    frame_drawn := 0 }

/-- `ShapeRenderer::frame_complete`. -/
def frame_complete (r : ShapeRenderer) : Bool :=
  r.frame_drawn ≥ r.shapes_length ∧ r.shapes_length > 0

/-- `ShapeRenderer::reset_frame_drawn`. -/
def reset_frame_drawn (r : ShapeRenderer) : ShapeRenderer :=
  let r1 := if r.shapes_length > 0 then
    { r with frame_drawn := r.frame_drawn - r.shapes_length } else r
  { r1 with current_shape := 0 }

/-- The arc-length skip loop of `ShapeRenderer::increment_with`:
`while shape_drawn > length { shape_drawn -= length; advance current_shape,
wrapping past the end; length = shapes[current_shape].length() }`.
`fuel` bounds the number of iterations; `none` means the fuel ran out, so for
an input on which the loop diverges the result is `none` for every fuel. -/
def skipLoop (shapes : List MShape) : Nat → ℚ → Nat → ℚ → Option (ℚ × Nat)
  | fuel, shape_drawn, current, length =>
    if shape_drawn > length then
      match fuel with
      | 0 => none
      | fuel + 1 =>
        let current' := if current + 1 ≥ shapes.length then 0 else current + 1
        skipLoop shapes fuel (shape_drawn - length) current'
          (shapeLengthAt shapes current')
    else some (shape_drawn, current)

/-- `ShapeRenderer::increment_with(length_increment)` — advance `frame_drawn`
and `shape_drawn`, then run the skip loop. -/
def increment_with (fuel : Nat) (r : ShapeRenderer) (length_increment : ℚ) :
    Option ShapeRenderer :=
  if r.shapes.isEmpty then some r
  else
    let length := if r.current_shape < r.shapes.length then
      shapeLengthAt r.shapes r.current_shape else 0
    let frame_drawn := r.frame_drawn + length_increment
    let shape_drawn := r.shape_drawn + length_increment
    match skipLoop r.shapes fuel shape_drawn r.current_shape length with
    | none => none
    | some (sd, cur) =>
      some { r with
        frame_drawn := frame_drawn
        shape_drawn := sd
        current_shape := cur }

/-- `ShapeRenderer::next_vector_with_increment` — sample the current shape at
`shape_drawn / length` (progress 1.0 for a zero-length shape), then advance by
the externally supplied increment. -/
def next_vector_with_increment (fuel : Nat) (r : ShapeRenderer)
    (length_increment : ℚ) : Option (Point × ShapeRenderer) :=
  if r.shapes.isEmpty then some (Point.new 0 0 1, r)
  else
    let point :=
      match r.shapes.get? r.current_shape with
      | some shape =>
        let length := shape.length
        let progress := if length = 0 then 1 else r.shape_drawn / length
        shape.sample progress
      | none => Point.new 0 0 1
    match increment_with fuel r length_increment with
    | none => none
    | some r' => some (point, r')

end ShapeRenderer

/-- `MIN_LENGTH_INCREMENT = 0.000001` (src/crates/osci-synth/src/voice.rs) —
the floor below which a voice's per-sample length increment never falls. -/
def MIN_LENGTH_INCREMENT : ℚ := 1 / 1000000

/-! ### ShapeSound (src/crates/osci-synth/src/sound.rs) -/

/-- `ShapeSound` — the frame mailbox between producer and audio thread.  The
bounded crossbeam channel is modelled by the list of frames it currently
holds, oldest first; a disconnected empty channel behaves identically to an
empty one in `update_frame` (both `TryRecvError` arms return the cached
length), so no separate disconnected flag is needed. -/
structure ShapeSound where
  pending : List (List MShape)
  current_frame : List MShape
  frame_length : ℚ

namespace ShapeSound

/-- `ShapeSound::update_frame` — non-blocking `try_recv`: a pending frame
replaces the current one and its total length is cached and returned;
otherwise (`Empty` or `Disconnected`) state is unchanged and the cached
length is returned. -/
def update_frame (s : ShapeSound) : ShapeSound × ℚ :=
  match s.pending with
  | frame :: rest =>
    let len := total_length frame
    (⟨rest, frame, len⟩, len)
  | [] => (s, s.frame_length)

/-- `ShapeSound::clone_frame` — `clone_shape` deep-copies each boxed shape;
on values this is the identity. -/
def clone_frame (s : ShapeSound) : List MShape := s.current_frame

/-- `ShapeSound::is_empty`. -/
def is_empty (s : ShapeSound) : Bool := s.current_frame.isEmpty

end ShapeSound

/-! ### ShapeVoice (src/crates/osci-synth/src/voice.rs) -/

/-- `VoiceEffect` — a per-voice effect instance.  The boxed
`dyn EffectApplication` is its `apply(sample_index, input, external_input,
values, sample_rate, frequency)` function. -/
structure VoiceEffect where
  id : String
  application : Nat → Point → Point → List ℚ → ℚ → ℚ → Point
  parameters : List EffectParameter
  enabled : Bool
  animated_values : List ℚ
  current_values : List ℚ

/-- The parameter loop of `VoiceEffect::animate`: animate each parameter over
the block, threading its entry of `current_values`, and record the block's
last output value into `animated_values`.  Returns
`(parameters', current_values', animated_values')`. -/
def animateParams (T : FloatFns) (block_size : Nat) (sample_rate : ℚ)
    (volume_buffer : Option (List ℚ)) :
    List EffectParameter → List ℚ → List EffectParameter × List ℚ × List ℚ
  | [], _ => ([], [], [])
  | p :: ps, currents =>
    let r := animate_parameter T p block_size sample_rate (currents.headD 0)
      volume_buffer
    let rest := animateParams T block_size sample_rate volume_buffer ps
      currents.tail
    (r.param :: rest.1, r.current :: rest.2.1,
      (r.output.getD (block_size - 1) 0) :: rest.2.2)

/-- `VoiceEffect::animate` — animate all parameters of the effect for a
block. -/
def VoiceEffect.animate (T : FloatFns) (e : VoiceEffect) (block_size : Nat)
    (sample_rate : ℚ) (volume_buffer : Option (List ℚ)) : VoiceEffect :=
  let r := animateParams T block_size sample_rate volume_buffer e.parameters
    e.current_values
  { e with parameters := r.1, current_values := r.2.1, animated_values := r.2.2 }

/-- The per-sample loop of `ShapeVoice::apply_effects` for one enabled
effect: feed `Point::new(voice_x[i], voice_y[i], voice_z[i])` and a zero
external input through `apply` and write back the x,y,z of the result.  The
three buffers are consumed in lockstep; `i` is the running sample index. -/
def applyEffectSamples (app : Nat → Point → Point → List ℚ → ℚ → ℚ → Point)
    (values : List ℚ) (sample_rate frequency : ℚ) :
    Nat → List ℚ → List ℚ → List ℚ → List ℚ × List ℚ × List ℚ
  | i, x :: xs, y :: ys, z :: zs =>
    let out := app i (Point.new x y z) Point.zero values sample_rate frequency
    let rest := applyEffectSamples app values sample_rate frequency (i + 1) xs ys zs
    (out.x :: rest.1, out.y :: rest.2.1, out.z :: rest.2.2)
  | _, _, _, _ => ([], [], [])

/-- `ShapeVoice::apply_effects` — for each enabled effect of the chain (in
order): animate its parameters over the block (sidechained off the volume
buffer) and apply it per sample; disabled effects are skipped entirely.
Returns the updated effect list and the transformed x,y,z buffers. -/
def applyEffectsChain (T : FloatFns) (sample_rate actual_frequency : ℚ)
    (block_size : Nat) (volume_buffer : List ℚ) :
    List VoiceEffect → List ℚ → List ℚ → List ℚ →
    List VoiceEffect × (List ℚ × List ℚ × List ℚ)
  | [], vx, vy, vz => ([], (vx, vy, vz))
  | e :: es, vx, vy, vz =>
    if e.enabled = false then
      let rest := applyEffectsChain T sample_rate actual_frequency block_size
        volume_buffer es vx vy vz
      (e :: rest.1, rest.2)
    else
      let e' := e.animate T block_size sample_rate (some volume_buffer)
      let values := e'.animated_values
      let tr := applyEffectSamples e'.application values sample_rate
        actual_frequency 0 vx vy vz
      let rest := applyEffectsChain T sample_rate actual_frequency block_size
        volume_buffer es tr.1 tr.2.1 tr.2.2
      (e' :: rest.1, rest.2)

/-- `ShapeVoice` state.  The five per-voice working `Vec`s (`voice_x`,
`voice_y`, `voice_z`, `frequency_buffer`, `volume_buffer`) are modelled by
the freshly generated block each render call: the source overwrites their
first `num_samples` entries on every block and never reads beyond them. -/
structure ShapeVoice where
  renderer : ShapeRenderer
  note : Nat
  velocity : ℚ
  frequency : ℚ
  actual_frequency : ℚ
  pitch_wheel_adjustment : ℚ
  adsr : Env
  time : ℚ
  release_time : ℚ
  end_time : ℚ
  waiting_for_release : Bool
  active : Bool
  sample_rate : ℚ
  effects : List VoiceEffect

/-- The frame wrap-around check at the end of each first-pass iteration of
`ShapeVoice::render_next_block`: on `frame_complete`, pull the next frame
from the sound, install it and rebase `frame_drawn`. -/
def frameSwapCheck (r : ShapeRenderer) (s : ShapeSound) :
    ShapeRenderer × ShapeSound :=
  if r.frame_complete then
    let s' := (s.update_frame).1
    let new_frame := s'.clone_frame
    ((r.set_shapes new_frame).reset_frame_drawn, s')
  else (r, s)

/-- Result of the raw first pass of `ShapeVoice::render_next_block`: the
generated `voice_x/y/z`, `frequency_buffer` and `volume_buffer` blocks plus
the updated renderer, sound, envelope time and active flag. -/
structure FirstPassResult where
  vx : List ℚ
  vy : List ℚ
  vz : List ℚ
  fb : List ℚ
  vb : List ℚ
  renderer : ShapeRenderer
  sound : ShapeSound
  time : ℚ
  active : Bool

/-- The raw first pass of `ShapeVoice::render_next_block`: per sample, derive
the length increment from the (loop-constant) frame length, frequency and
sample rate with the `MIN_LENGTH_INCREMENT` floor, step the renderer, stamp
frequency and envelope volume, advance time (clamped at `release_time` while
waiting for release), and on reaching `end_time` zero the rest of the block
and go inactive; otherwise swap frames at wrap-around and continue.  The
list recursion counts the remaining samples; `fuel` bounds the renderer's
skip loop. -/
def firstPassLoop (T : FloatFns) (fuel : Nat) (midi_enabled : Bool)
    (sample_rate actual_frequency frame_length end_time release_time : ℚ)
    (waiting_for_release : Bool) (adsr : Env) :
    Nat → ShapeRenderer → ShapeSound → ℚ → Option FirstPassResult
  | 0, r, s, time => some ⟨[], [], [], [], [], r, s, time, true⟩
  | k + 1, r, s, time =>
    let length_increment :=
      if sample_rate > 0 then
        Max.max (frame_length / (sample_rate / actual_frequency))
          MIN_LENGTH_INCREMENT
      else MIN_LENGTH_INCREMENT
    match r.next_vector_with_increment fuel length_increment with
    | none => none
    | some (point, r1) =>
      let env_value := if midi_enabled then adsr.lookup T time else 1
      let time1 := if sample_rate > 0 then time + 1 / sample_rate else time
      if waiting_for_release = false ∧ time1 ≥ end_time then
        some ⟨point.x :: List.replicate k 0, point.y :: List.replicate k 0,
          point.z :: List.replicate k 0,
          actual_frequency :: List.replicate k actual_frequency,
          env_value :: List.replicate k 0, r1, s, time1, false⟩
      else
        let time2 := if waiting_for_release then Min.min time1 release_time
          else time1
        let rs := frameSwapCheck r1 s
        match firstPassLoop T fuel midi_enabled sample_rate actual_frequency
          frame_length end_time release_time waiting_for_release adsr
          k rs.1 rs.2 time2 with
        | none => none
        | some res =>
          some ⟨point.x :: res.vx, point.y :: res.vy, point.z :: res.vz,
            actual_frequency :: res.fb, env_value :: res.vb,
            res.renderer, res.sound, res.time, res.active⟩

namespace ShapeVoice

/-- The body of `ShapeVoice::render_next_block` up to (and including)
`apply_effects`, before the mix into the output buffers: assumes the caller
checked `active`.  Returns the updated voice, sound, the effect-processed
x,y,z blocks and the volume buffer. -/
def renderCore (T : FloatFns) (fuel : Nat) (v : ShapeVoice) (num_samples : Nat)
    (s : ShapeSound) (midi_enabled : Bool) (default_frequency : ℚ) :
    Option (ShapeVoice × ShapeSound × (List ℚ × List ℚ × List ℚ) × List ℚ) :=
  let af := if midi_enabled then v.frequency * v.pitch_wheel_adjustment
    else default_frequency
  let frame_length := v.renderer.shapes_length
  match firstPassLoop T fuel midi_enabled v.sample_rate af frame_length
    v.end_time v.release_time v.waiting_for_release v.adsr
    num_samples v.renderer s v.time with
  | none => none
  | some res =>
    let er := applyEffectsChain T v.sample_rate af num_samples res.vb
      v.effects res.vx res.vy res.vz
    some ({ v with
        renderer := res.renderer
        actual_frequency := af
        time := res.time
        active := res.active
        effects := er.1 },
      res.sound, er.2, res.vb)

/-- The final mix loop of `ShapeVoice::render_next_block`:
`output[i] += rendered[i] * gain[i]` over the first `num_samples` entries
(the contribution and gain blocks have exactly `num_samples` entries). -/
def mixPrefix : List ℚ → List ℚ → List ℚ → List ℚ
  | c :: cs, g :: gs, o :: os => (o + c * g) :: mixPrefix cs gs os
  | _, _, os => os

/-- `ShapeVoice::render_next_block` — no-op for an inactive voice; otherwise
render the raw block, apply the effect chain, and mix into the output
buffers with gain `volume_buffer[i] * velocity` (MIDI) or
`max(velocity, 1.0)`. -/
def render_next_block (T : FloatFns) (fuel : Nat) (v : ShapeVoice)
    (output_x output_y output_z : List ℚ) (num_samples : Nat) (s : ShapeSound)
    (midi_enabled : Bool) (default_frequency : ℚ) :
    Option (ShapeVoice × ShapeSound × List ℚ × List ℚ × List ℚ) :=
  if v.active = false then some (v, s, output_x, output_y, output_z)
  else
    match renderCore T fuel v num_samples s midi_enabled default_frequency with
    | none => none
    | some (v', s', bufs, vb) =>
      let gains := if midi_enabled then vb.map (fun vol => vol * v.velocity)
        else vb.map (fun _ => Max.max v.velocity 1)
      some (v', s', mixPrefix bufs.1 gains output_x,
        mixPrefix bufs.2.1 gains output_y, mixPrefix bufs.2.2 gains output_z)

/-- The bounded retry loop of `ShapeVoice::start_note`:
`while sound.is_empty() && tries < 50 { sound.update_frame(); }`. -/
def loadFrameTries : Nat → ShapeSound → ShapeSound
  | 0, s => s
  | k + 1, s => if s.is_empty then loadFrameTries k (s.update_frame).1 else s

/-- `midi_note_to_hz` — `440 * 2^((note - 69) / 12)`. -/
def midi_note_to_hz (T : FloatFns) (note : Nat) : ℚ :=
  440 * T.powf 2 (((note : ℚ) - 69) / 12)

/-- `ShapeVoice::start_note` — begin playing a note: load the current frame
(retrying up to 50 times while the sound is empty), reset renderer and time,
derive `release_time` (stage times before the release node) and `end_time`
(all stage times) from the envelope, and set the frequency from the MIDI
note or the default. -/
def start_note (T : FloatFns) (v : ShapeVoice) (midi_note : Nat)
    (velocity : ℚ) (s : ShapeSound) (adsr : Env) (midi_enabled : Bool)
    (default_frequency : ℚ) : ShapeVoice × ShapeSound :=
  let s1 := loadFrameTries 50 s
  let frame := s1.clone_frame
  let renderer' := v.renderer.set_shapes frame
  let rt_et := adsr.times.enum.foldl
    (fun acc it =>
      ((if (it.1 : Int) < adsr.release_node then acc.1 + it.2 else acc.1),
        acc.2 + it.2))
    ((0 : ℚ), (0 : ℚ))
  let frequency := if midi_enabled then midi_note_to_hz T midi_note
    else default_frequency
  ({ v with
      velocity := velocity
      note := midi_note
      active := true
      renderer := renderer'
      adsr := adsr
      time := 0
      waiting_for_release := true
      release_time := rt_et.1
      end_time := rt_et.2
      frequency := frequency },
    s1)

/-- `ShapeVoice::stop_note(allow_tail_off)` — clear the waiting flag; without
tail-off also go inactive at once (`note_stopped`). -/
def stop_note (v : ShapeVoice) (allow_tail_off : Bool) : ShapeVoice :=
  let v1 := { v with waiting_for_release := false }
  if allow_tail_off = false then { v1 with active := false } else v1

end ShapeVoice

/-! ### Synthesizer (src/crates/osci-synth/src/synthesizer.rs) -/

/-- `Synthesizer` — fixed voice pool plus MIDI routing state. -/
structure Synthesizer where
  voices : List ShapeVoice
  sample_rate : ℚ
  adsr : Env
  midi_enabled : Bool
  default_frequency : ℚ

/-- Replace the element at index `i` by `f` of it (`l[i] = f(l[i])`); no-op
out of bounds. -/
def listModify {α : Type} (l : List α) (i : Nat) (f : α → α) : List α :=
  match l.get? i with
  | some x => l.set i (f x)
  | none => l

/-- `Iterator::position` — index of the first element satisfying the
predicate. -/
def position? {α : Type} (p : α → Bool) : List α → Option Nat
  | [] => none
  | a :: l => if p a then some 0 else (position? p l).map (· + 1)

namespace Synthesizer

/-- `Synthesizer::active_voice_count` — number of voices whose `is_active()`
is true. -/
def active_voice_count (syn : Synthesizer) : Nat :=
  (syn.voices.filter (fun v => v.active)).length

/-- `Synthesizer::num_voices`. -/
def num_voices (syn : Synthesizer) : Nat := syn.voices.length

/-- `Synthesizer::find_free_voice` — position of the first non-active
voice. -/
def find_free_voice (syn : Synthesizer) : Option Nat :=
  position? (fun v => !v.active) syn.voices

/-- `Synthesizer::steal_voice` — stop the first active voice without
tail-off and return its index (0 if none is active). -/
def steal_voice (syn : Synthesizer) : Synthesizer × Nat :=
  match position? (fun v => v.active) syn.voices with
  | some idx =>
    let voices' := listModify syn.voices idx (fun v => v.stop_note false)
    ({ syn with voices := voices' }, idx)
  | none => (syn, 0)

/-- Start the note on `voices[voice_idx]` (the tail of
`Synthesizer::note_on`).  The out-of-bounds arm is unreachable for a
non-empty pool (the Rust indexing would panic on an empty one). -/
def startVoiceAt (T : FloatFns) (syn : Synthesizer) (voice_idx : Nat)
    (note : Nat) (velocity : ℚ) (snd : ShapeSound) :
    Synthesizer × ShapeSound :=
  match syn.voices.get? voice_idx with
  | some v =>
    let r := v.start_note T note velocity snd syn.adsr syn.midi_enabled
      syn.default_frequency
    ({ syn with voices := syn.voices.set voice_idx r.1 }, r.2)
  | none => (syn, snd)

/-- `Synthesizer::note_on` — use the first idle voice, or steal one
(`find_free_voice().unwrap_or_else(steal_voice)`), then start the note on
it. -/
def note_on (T : FloatFns) (syn : Synthesizer) (note : Nat) (velocity : ℚ)
    (snd : ShapeSound) : Synthesizer × ShapeSound :=
  match syn.find_free_voice with
  | some idx => startVoiceAt T syn idx note velocity snd
  | none =>
    let st := syn.steal_voice
    startVoiceAt T st.1 st.2 note velocity snd

/-- Fold a sequence of `(note, velocity)` NoteOn events through `note_on`. -/
def noteOnSeq (T : FloatFns) : Synthesizer → ShapeSound → List (Nat × ℚ) →
    Synthesizer × ShapeSound
  | syn, snd, [] => (syn, snd)
  | syn, snd, ev :: rest =>
    let r := note_on T syn ev.1 ev.2 snd
    noteOnSeq T r.1 r.2 rest

/-- The buffer-clearing loop of `Synthesizer::render_next_block`:
`output[i] = 0.0` for every `i < num_samples` (out of range of the buffer the
Rust code would panic; the model leaves a too-short buffer short). -/
def clearPrefix : Nat → List ℚ → List ℚ
  | 0, out => out
  | _ + 1, [] => []
  | n + 1, _ :: rest => 0 :: clearPrefix n rest

/-- The voice loop of `Synthesizer::render_next_block`: each active voice
renders and mixes into the running buffers; inactive voices are skipped. -/
def renderVoices (T : FloatFns) (fuel : Nat) (midi_enabled : Bool)
    (default_frequency : ℚ) (num_samples : Nat) :
    List ShapeVoice → ShapeSound → List ℚ → List ℚ → List ℚ →
    Option (List ShapeVoice × ShapeSound × List ℚ × List ℚ × List ℚ)
  | [], s, ox, oy, oz => some ([], s, ox, oy, oz)
  | v :: vs, s, ox, oy, oz =>
    if v.active then
      match v.render_next_block T fuel ox oy oz num_samples s midi_enabled
        default_frequency with
      | none => none
      | some (v', s', ox', oy', oz') =>
        match renderVoices T fuel midi_enabled default_frequency num_samples
          vs s' ox' oy' oz' with
        | none => none
        | some (vs', s'', ox'', oy'', oz'') =>
          some (v' :: vs', s'', ox'', oy'', oz'')
    else
      match renderVoices T fuel midi_enabled default_frequency num_samples
        vs s ox oy oz with
      | none => none
      | some (vs', s', ox', oy', oz') => some (v :: vs', s', ox', oy', oz')

/-- `Synthesizer::render_next_block` — clear the first `num_samples` entries
of the three output buffers, then mix every active voice in additively. -/
def render_next_block (T : FloatFns) (fuel : Nat) (syn : Synthesizer)
    (output_x output_y output_z : List ℚ) (num_samples : Nat)
    (snd : ShapeSound) :
    Option (Synthesizer × ShapeSound × List ℚ × List ℚ × List ℚ) :=
  let ox0 := clearPrefix num_samples output_x
  let oy0 := clearPrefix num_samples output_y
  let oz0 := clearPrefix num_samples output_z
  match renderVoices T fuel syn.midi_enabled syn.default_frequency num_samples
    syn.voices snd ox0 oy0 oz0 with
  | none => none
  | some (voices', snd', ox', oy', oz') =>
    some ({ syn with voices := voices' }, snd', ox', oy', oz')

end Synthesizer

/-! ### Concrete instances used by witnesses and counterexamples -/

/-- `PointShape` (src/crates/osci-core/src/shape.rs) as an `MShape`:
`length() = 0`, `next_vector` constant. -/
def pointShapeM (p : Point) : MShape := ⟨0, fun _ => p⟩

/-- An abstract shape of length 5 (any `Box<dyn Shape>` with that cached
length). -/
def shape5 : MShape := ⟨5, fun _ => Point.zero⟩

/-- `EffectParameter::new` (string fields omitted): Static LFO at rate 1,
start/end percent 0/100, smoothing 0.3, phase 0, PRNG seed `0x12345678`,
sidechain off. -/
def EffectParameter.new (value min max : ℚ) : EffectParameter :=
  ⟨value, min, max, LfoType.Static, 1, 0, 100, 3 / 10, 0, 0x12345678, false⟩

/-- `ShapeVoice::new(sample_rate)` — idle voice with the default ADSR. -/
def ShapeVoice.new (sample_rate : ℚ) : ShapeVoice :=
  { renderer := ⟨[], 0, 0, 0, 0⟩
    note := 0
    velocity := 0
    frequency := 1
    actual_frequency := 1
    pitch_wheel_adjustment := 1
    adsr := Env.adsr (1 / 100) (3 / 10) (1 / 2) 1 1 (-4)
    time := 0
    release_time := 0
    end_time := 99999999
    waiting_for_release := false
    active := false
    sample_rate := sample_rate
    effects := [] }

/-- `Synthesizer::new(num_voices, sample_rate)`. -/
def Synthesizer.new (num_voices : Nat) (sample_rate : ℚ) : Synthesizer :=
  { voices := List.replicate num_voices (ShapeVoice.new sample_rate)
    sample_rate := sample_rate
    adsr := Env.adsr (1 / 100) (3 / 10) (1 / 2) 1 1 (-4)
    midi_enabled := true
    default_frequency := 440 }

/-- `ShapeSound::new` — empty mailbox (the channel capacity only throttles
the producer and is invisible to the consumer model). -/
def ShapeSound.new : ShapeSound := ⟨[], [], 0⟩

/-- A sound with one frame (of total length 5) pending in the channel. -/
def soundPending : ShapeSound := ⟨[[shape5]], [], 0⟩

/-- Envelope `Env::new(vec![0.0, 1.0], vec![1.0], vec![linear], -1, -1)`:
one linear stage from level 0 to level 1 over 1 second. -/
def c1Env : Env := Env.new [0, 1] [1] [EnvCurve.linear] (-1) (-1)

/-- A renderer holding a frame that consists of a single `PointShape` —
every shape length is 0, as is the cached total length. -/
def c2Renderer : ShapeRenderer :=
  ShapeRenderer.set_shapes ⟨[], 0, 0, 0, 0⟩ [pointShapeM Point.zero]

/-- A Noise-LFO parameter over `[0, 1]` with the default seed. -/
def c5Param : EffectParameter :=
  { EffectParameter.new (3 / 4) 0 1 with lfo_type := LfoType.Noise }

/-- The mapping the specification claims for the Noise LFO: the top 24 bits
of the PRNG state scaled to `[0,1)` by `/ 2^24`, then into the LFO range. -/
def claimedNoiseSample (state : Nat) (lfo_range lfo_min : ℚ) : ℚ :=
  ((state >>> 8 : Nat) : ℚ) / 16777216 * lfo_range + lfo_min

/-- A Static parameter with instant smoothing (`smooth_value_change = 1`). -/
def c7Param : EffectParameter :=
  { EffectParameter.new (3 / 4) 0 1 with smooth_value_change := 1 }

/-- The line from `(0,0,0)` to `(2,4,6)`. -/
def c6Line : Line := ⟨0, 0, 0, 2, 4, 6⟩

/-- A two-voice synthesizer, all voices idle. -/
def c3Synth : Synthesizer := Synthesizer.new 2 44100

/-- Three NoteOn events for the two-voice pool. -/
def c3Events : List (Nat × ℚ) := [(60, 1), (64, 1), (67, 1)]

/-- Prefix agreement of two output buffers: both long enough for the block
and equal at every index below `n`. -/
def BufAgree (n : Nat) (o1 o2 : List ℚ) : Prop :=
  n ≤ o1.length ∧ n ≤ o2.length ∧ ∀ i < n, o1.getD i 0 = o2.getD i 0

/-- Agreement of two `render_next_block` results: both fail (out of skip-loop
fuel) or both succeed with identical non-buffer state and `BufAgree`ing
output buffers. -/
def renderAgree {α : Type} (n : Nat) :
    Option (α × ShapeSound × List ℚ × List ℚ × List ℚ) →
    Option (α × ShapeSound × List ℚ × List ℚ × List ℚ) → Prop
  | none, none => True
  | some a, some b =>
    a.1 = b.1 ∧ a.2.1 = b.2.1 ∧ BufAgree n a.2.2.1 b.2.2.1 ∧
      BufAgree n a.2.2.2.1 b.2.2.2.1 ∧ BufAgree n a.2.2.2.2 b.2.2.2.2
  | _, _ => False

end Osci

/-! ## Theorems -/

namespace Osci

/-- C4 counterexample: the claim says negation operates on all six channels,
but `-Point::with_rgb(1,1,1,1,1,1)` keeps its colour channels at `1` instead
of negating them (it equals `with_rgb(-1,-1,-1,1,1,1)`). -/
theorem c4_neg_counterexample :
    Point.neg (Point.with_rgb 1 1 1 1 1 1) ≠
        Point.with_rgb (-1) (-1) (-1) (-1) (-1) (-1) ∧
      Point.neg (Point.with_rgb 1 1 1 1 1 1) =
        Point.with_rgb (-1) (-1) (-1) 1 1 1 := by
  constructor
  · decide
  · rfl

/-- C4 (amended): Point+Point, Point−Point and element-wise Point*Point
operate on all six channels; negation and the scalar `+`, `-`, `*` touch only
x,y,z and preserve r,g,b; the compound scalar `*=` and `/=` touch all six
channels. -/
theorem c4_point_channel_asymmetry (p q : Point) (s : ℚ) :
    p.add q = ⟨p.x + q.x, p.y + q.y, p.z + q.z, p.r + q.r, p.g + q.g, p.b + q.b⟩ ∧
    p.sub q = ⟨p.x - q.x, p.y - q.y, p.z - q.z, p.r - q.r, p.g - q.g, p.b - q.b⟩ ∧
    p.mul q = ⟨p.x * q.x, p.y * q.y, p.z * q.z, p.r * q.r, p.g * q.g, p.b * q.b⟩ ∧
    p.neg = ⟨-p.x, -p.y, -p.z, p.r, p.g, p.b⟩ ∧
    p.addScalar s = ⟨p.x + s, p.y + s, p.z + s, p.r, p.g, p.b⟩ ∧
    p.subScalar s = ⟨p.x - s, p.y - s, p.z - s, p.r, p.g, p.b⟩ ∧
    p.mulScalar s = ⟨p.x * s, p.y * s, p.z * s, p.r, p.g, p.b⟩ ∧
    p.mulAssignScalar s = ⟨p.x * s, p.y * s, p.z * s, p.r * s, p.g * s, p.b * s⟩ ∧
    p.divAssignScalar s = ⟨p.x / s, p.y / s, p.z / s, p.r / s, p.g / s, p.b / s⟩ :=
  ⟨rfl, rfl, rfl, rfl, rfl, rfl, rfl, rfl, rfl⟩

/-- C6: for every `t ∈ [0,1]`, `Line::next_vector(t)` is the exact linear
interpolation `(1−t)·p1 + t·p2` of the endpoints in each spatial coordinate,
and at `t = 0` and `t = 1` it returns the endpoints exactly. -/
theorem c6_line_sample_lerp (l : Line) (t : ℚ) (_h0 : 0 ≤ t) (_h1 : t ≤ 1) :
    ((l.next_vector t).x = (1 - t) * l.x1 + t * l.x2 ∧
      (l.next_vector t).y = (1 - t) * l.y1 + t * l.y2 ∧
      (l.next_vector t).z = (1 - t) * l.z1 + t * l.z2) ∧
    ((l.next_vector 0).x = l.x1 ∧ (l.next_vector 0).y = l.y1 ∧
      (l.next_vector 0).z = l.z1) ∧
    ((l.next_vector 1).x = l.x2 ∧ (l.next_vector 1).y = l.y2 ∧
      (l.next_vector 1).z = l.z2) := by
  refine ⟨⟨?_, ?_, ?_⟩, ⟨?_, ?_, ?_⟩, ⟨?_, ?_, ?_⟩⟩ <;>
    simp [Line.next_vector, Point.new] <;> ring

/-- C6 witness at `t = 1/2` on the line from `(0,0,0)` to `(2,4,6)`. -/
theorem c6_witness :
    (0 ≤ (1 / 2 : ℚ) ∧ (1 / 2 : ℚ) ≤ 1) ∧
    ((c6Line.next_vector (1 / 2)).x = (1 - 1 / 2) * c6Line.x1 + 1 / 2 * c6Line.x2 ∧
      (c6Line.next_vector (1 / 2)).y = (1 - 1 / 2) * c6Line.y1 + 1 / 2 * c6Line.y2 ∧
      (c6Line.next_vector (1 / 2)).z = (1 - 1 / 2) * c6Line.z1 + 1 / 2 * c6Line.z2) ∧
    ((c6Line.next_vector 0).x = c6Line.x1 ∧
      (c6Line.next_vector 0).y = c6Line.y1 ∧
      (c6Line.next_vector 0).z = c6Line.z1) ∧
    ((c6Line.next_vector 1).x = c6Line.x2 ∧
      (c6Line.next_vector 1).y = c6Line.y2 ∧
      (c6Line.next_vector 1).z = c6Line.z2) :=
  ⟨⟨by norm_num, by norm_num⟩,
    c6_line_sample_lerp c6Line (1 / 2) (by norm_num) (by norm_num)⟩

/-- C8: `ShapeSound::update_frame` is a non-blocking poll — with no pending
frame the current frame and cached length are unchanged and the cached length
is returned; a pending frame becomes the current frame with the cached length
recomputed as the total length of its shapes. -/
theorem c8_update_frame (s : ShapeSound) :
    (s.pending = [] → s.update_frame = (s, s.frame_length)) ∧
    (∀ frame rest, s.pending = frame :: rest →
      s.update_frame =
        (⟨rest, frame, total_length frame⟩, total_length frame)) := by
  constructor
  · intro h
    simp [ShapeSound.update_frame, h]
  · intro frame rest h
    simp [ShapeSound.update_frame, h]

/-- C8 witness: an empty mailbox is left unchanged; a mailbox with a pending
frame of total length 5 swaps it in and returns 5. -/
theorem c8_witness :
    (ShapeSound.new.pending = [] ∧
      ShapeSound.new.update_frame = (ShapeSound.new, ShapeSound.new.frame_length)) ∧
    (soundPending.pending = [[shape5]] ∧
      soundPending.update_frame =
        (⟨[], [shape5], total_length [shape5]⟩, total_length [shape5])) :=
  ⟨⟨rfl, (c8_update_frame ShapeSound.new).1 rfl⟩,
    ⟨rfl, (c8_update_frame soundPending).2 [shape5] [] rfl⟩⟩

/-- The skip loop never exits on a one-shape frame whose shape has length 0
once `shape_drawn` is positive: each pass subtracts the zero length and
re-tests the unchanged state. -/
theorem skipLoop_allzero_stuck (sh : MShape) (hlen : sh.length = 0) :
    ∀ (fuel : Nat) (sd : ℚ), 0 < sd →
      ShapeRenderer.skipLoop [sh] fuel sd 0 0 = none := by
  intro fuel
  induction fuel with
  | zero =>
    intro sd hsd
    rw [ShapeRenderer.skipLoop]
    rw [if_pos hsd]
  | succ f ih =>
    intro sd hsd
    rw [ShapeRenderer.skipLoop]
    rw [if_pos hsd]
    simpa [shapeLengthAt, hlen] using ih sd hsd

/-- The last entry of a non-empty list through `getD` at `length - 1`. -/
theorem getD_length_sub_one (l : List ℚ) (h : l ≠ []) :
    l.getD (l.length - 1) 0 = l.getLastD 0 := by
  induction l with
  | nil => cases h rfl
  | cons a l ih =>
    cases l with
    | nil => rfl
    | cons b m =>
      have := ih (by simp)
      simpa [List.getD] using this

/-- When every stage time is positive and `time` is the total of the stage
times, the accumulation loop of `Env::lookup` traverses every stage: it ends
with `last_time` the sum of all but the last stage, `stage_time = time` and
`stage_index` past the whole list. -/
theorem stageSearch_total (time : ℚ) :
    ∀ (l : List ℚ) (last acc : ℚ) (idx : Nat),
      (∀ t ∈ l, 0 < t) → l ≠ [] → time = acc + l.sum →
      stageSearch time l last acc idx =
        (acc + l.dropLast.sum, time, idx + l.length) := by
  intro l
  induction l with
  | nil => intro _ _ _ _ hne _; cases hne rfl
  | cons t rest ih =>
    intro last acc idx hpos _ htime
    have h1 : 0 < t := hpos t (by simp)
    have h2 : 0 ≤ rest.sum :=
      List.sum_nonneg (fun x hx => le_of_lt (hpos x (by simp [hx])))
    have hlt : acc < time := by
      rw [htime, List.sum_cons]; linarith
    rw [stageSearch, if_pos hlt]
    by_cases hr : rest = []
    · subst hr
      rw [stageSearch]
      simp [htime]
    · rw [ih acc (acc + t) (idx + 1) (fun x hx => hpos x (by simp [hx])) hr
        (by rw [htime, List.sum_cons]; ring)]
      simp only [List.dropLast_cons_of_ne_nil hr, List.sum_cons,
        List.length_cons, Prod.mk.injEq]
      exact ⟨by ring, trivial, by omega⟩

/-- `getD` with default `EnvCurve::linear` on a list of all-linear curves is
linear, in or out of bounds. -/
theorem curves_getD_linear (cs : List EnvCurve) (i : Nat)
    (h : ∀ c ∈ cs, c = EnvCurve.linear) :
    cs.getD i EnvCurve.linear = EnvCurve.linear := by
  rcases hc : cs.get? i with _ | c
  · rw [List.get?_eq_getElem?] at hc
    simp [List.getD_eq_getD_get?, List.get?_eq_getElem?, hc]
  · have := h c (List.get?_mem hc)
    rw [List.get?_eq_getElem?] at hc
    simp [List.getD_eq_getD_get?, List.get?_eq_getElem?, hc, this]

/-- C1 (amended): `Env::lookup(0)` returns `levels[0]` (for a well-formed
envelope); and at `time` exactly the sum of the stage times — with every
stage time positive and linear stage curves — `lookup` returns the last
level.  For `time` strictly beyond the total, `lookup` extrapolates the final
stage's curve past the last level instead of clamping (see the
counterexample). -/
theorem c1_lookup_boundaries (T : FloatFns) (env : Env)
    (hL : env.levels.length = env.times.length + 1)
    (hne : env.times ≠ [])
    (hpos : ∀ t ∈ env.times, 0 < t)
    (hcurves : ∀ c ∈ env.curves, c = EnvCurve.linear) :
    env.lookup T 0 = env.levels.getD 0 0 ∧
    env.lookup T env.times.sum = env.levels.getLastD 0 := by
  have hlev : ¬ env.levels.length < 1 := by omega
  constructor
  · rw [Env.lookup]
    rw [if_neg hlev, if_pos (Or.inl le_rfl)]
  · rw [Env.lookup, if_neg hlev]
    have hsum : 0 < env.times.sum := List.sum_pos env.times hpos hne
    have htlen : env.times.length ≠ 0 := fun h => hne (List.length_eq_zero.mp h)
    rw [if_neg (by push_neg; exact ⟨hsum, htlen⟩)]
    rw [stageSearch_total env.times.sum env.times 0 0 0 hpos hne (by simp)]
    simp only [zero_add]
    rw [if_neg (by omega)]
    rw [curves_getD_linear _ _ hcurves]
    have hlast : env.levels.getD env.times.length 0 = env.levels.getLastD 0 := by
      have : env.times.length = env.levels.length - 1 := by omega
      rw [this, getD_length_sub_one env.levels (by
        intro h
        rw [h] at hL
        simp at hL)]
    by_cases hz : env.times.dropLast.sum - env.times.sum = 0
    · rw [if_pos hz, hlast]
    · rw [if_neg hz]
      rw [curveValue]
      simp only [EnvCurve.linear]
      rw [linlin, hlast.symm]
      have hd : env.times.sum - env.times.dropLast.sum ≠ 0 := by
        intro h
        exact hz (by linarith [sub_eq_zero.mp h])
      field_simp

/-- The Noise path's final PRNG state is the `k`-fold xorshift32 iterate of
the starting state. -/
theorem noiseLoop_state (lr lm : ℚ) (k : Nat) :
    ∀ st : Nat, (noiseLoop lr lm k st).2 = xorshiftN k st := by
  induction k with
  | zero => intro st; rfl
  | succ n ih =>
    intro st
    simp only [noiseLoop, xorshiftN]
    exact ih (xorshift32 st)

/-- Sample `i` of the Noise path maps the low 24 bits of the `(i+1)`-st PRNG
iterate through `/ 16777215` into the LFO range. -/
theorem noiseLoop_getD (lr lm : ℚ) (k : Nat) :
    ∀ (st i : Nat), i < k →
      (noiseLoop lr lm k st).1.getD i 0 =
        ((xorshiftN (i + 1) st &&& 0xFFFFFF : Nat) : ℚ) / 16777215 * lr + lm := by
  induction k with
  | zero => intro st i hi; omega
  | succ n ih =>
    intro st i hi
    cases i with
    | zero =>
      simp only [noiseLoop, List.getD_cons_zero]
      rfl
    | succ j =>
      simp only [noiseLoop, List.getD_cons_succ]
      have h2 : xorshiftN (j + 1 + 1) st = xorshiftN (j + 1) (xorshift32 st) :=
        rfl
      rw [h2]
      exact ih (xorshift32 st) j (by omega)

/-- C5 (amended): with LFO type Noise, `animate_parameter` advances the
32-bit xorshift PRNG (`x^=x<<13; x^=x>>17; x^=x<<5`) once per output sample,
and writes for sample `i` the LOW 24 bits of the advanced state divided by
`16777215 = 2^24 - 1` (a value in `[0,1]`, inclusive), scaled into the LFO
range derived from the parameter's min/max and start/end percentages. -/
theorem c5_noise_prng (T : FloatFns) (p : EffectParameter) (n : Nat)
    (sr cur : ℚ) (vol : Option (List ℚ)) (h : p.lfo_type = LfoType.Noise) :
    (animate_parameter T p n sr cur vol).param.rng_state =
      xorshiftN n p.rng_state ∧
    ∀ i < n, (animate_parameter T p n sr cur vol).output.getD i 0 =
      ((xorshiftN (i + 1) p.rng_state &&& 0xFFFFFF : Nat) : ℚ) / 16777215 *
        (p.lfo_range.2 - p.lfo_range.1) + p.lfo_range.1 := by
  rw [animate_parameter, h]
  rw [if_neg (by simp : ¬(LfoType.Noise = LfoType.Static))]
  dsimp only
  exact ⟨noiseLoop_state _ _ n p.rng_state,
    fun i hi => noiseLoop_getD _ _ n p.rng_state i hi⟩

/-- C5 witness: one Noise sample from the default seed `0x12345678`. -/
theorem c5_witness :
    c5Param.lfo_type = LfoType.Noise ∧
    ((animate_parameter zeroFns c5Param 1 44100 0 none).param.rng_state =
        xorshiftN 1 c5Param.rng_state ∧
      ∀ i < 1, (animate_parameter zeroFns c5Param 1 44100 0 none).output.getD i 0 =
        ((xorshiftN (i + 1) c5Param.rng_state &&& 0xFFFFFF : Nat) : ℚ) / 16777215 *
          (c5Param.lfo_range.2 - c5Param.lfo_range.1) + c5Param.lfo_range.1) :=
  ⟨rfl, c5_noise_prng zeroFns c5Param 1 44100 0 none rfl⟩

/-- C5 counterexample: the claim maps the TOP 24 bits of the state into
`[0,1)` (division by `2^24`); from the default seed the first Noise sample is
`(state & 0xFFFFFF)/16777215 = 9984677/16777215`, which differs from the
claimed `(state >> 8)/16777216 = 8886362/16777216`. -/
theorem c5_counterexample :
    (animate_parameter zeroFns c5Param 1 44100 0 none).output.getD 0 0 ≠
      claimedNoiseSample (xorshift32 c5Param.rng_state)
        (c5Param.lfo_range.2 - c5Param.lfo_range.1) c5Param.lfo_range.1 := by
  have h1 : (animate_parameter zeroFns c5Param 1 44100 0 none).output.getD 0 0 =
      ((xorshiftN 1 c5Param.rng_state &&& 0xFFFFFF : Nat) : ℚ) / 16777215 *
        (c5Param.lfo_range.2 - c5Param.lfo_range.1) + c5Param.lfo_range.1 :=
    (c5_noise_prng zeroFns c5Param 1 44100 0 none rfl).2 0 (by omega)
  rw [h1]
  have h2 : (xorshiftN 1 c5Param.rng_state &&& 0xFFFFFF : Nat) = 9984677 := by
    decide
  have h3 : (xorshift32 c5Param.rng_state) >>> 8 = 8886362 := by decide
  have h4 : c5Param.lfo_range = (0, 1) := by
    norm_num [c5Param, EffectParameter.new, EffectParameter.lfo_range]
  rw [claimedNoiseSample, h2, h3, h4]
  norm_num

/-- Sample `j` of the Static path with instant smoothing is the per-sample
target: the sidechain-derived value at absolute index `i + j`, or the static
target. -/
theorem staticLoop_instant_getD (us : Bool) (vol : Option (List ℚ))
    (range pmin st w : ℚ) (k : Nat) :
    ∀ (i : Nat) (cur : ℚ) (j : Nat), j < k →
      (staticLoop us vol range pmin st true w i k cur).1.getD j 0 =
        (if us then ((vol.bind (fun b => b.get? (i + j))).getD 1) * range + pmin
         else st) := by
  induction k with
  | zero => intro i cur j hj; omega
  | succ m ih =>
    intro i cur j hj
    cases j with
    | zero =>
      simp [staticLoop]
    | succ j' =>
      simp only [staticLoop, List.getD_cons_succ]
      have harg : i + 1 + j' = i + (j' + 1) := by omega
      rw [← harg]
      exact ih (i + 1) _ j' (by omega)

/-- C7: with LFO type Static, smoothing coefficient ≥ 1 and sidechain
disabled, `animate_parameter` writes `param.value` into every sample of the
block; with sidechain enabled it writes `volume_buffer[i]*(max-min)+min` at
every sample `i` covered by the volume buffer. -/
theorem c7_static_instant (T : FloatFns) (p : EffectParameter) (n : Nat)
    (sr cur : ℚ) (h1 : p.lfo_type = LfoType.Static)
    (h2 : 1 ≤ p.smooth_value_change) :
    (p.sidechain_enabled = false → ∀ (vol : Option (List ℚ)) (i : Nat), i < n →
      (animate_parameter T p n sr cur vol).output.getD i 0 = p.value) ∧
    (p.sidechain_enabled = true → ∀ (vb : List ℚ) (i : Nat), i < n →
      i < vb.length →
      (animate_parameter T p n sr cur (some vb)).output.getD i 0 =
        vb.getD i 0 * (p.max - p.min) + p.min) := by
  have hb : (decide (p.smooth_value_change ≥ 1)) = true := decide_eq_true h2
  constructor
  · intro hsc vol i hi
    rw [animate_parameter, if_pos h1]
    dsimp only
    rw [hb, hsc]
    rw [staticLoop_instant_getD false vol (p.max - p.min) p.min _ _ n 0 cur
      i hi]
    simp
  · intro hsc vb i hi hilen
    rw [animate_parameter, if_pos h1]
    dsimp only
    rw [hb, hsc]
    rw [staticLoop_instant_getD true (some vb) (p.max - p.min) p.min _ _ n 0
      cur i hi]
    have hd : vb.getD i 0 = vb[i] := List.getD_eq_getElem vb 0 hilen
    simp [List.get?_eq_get hilen, hd]
    left
    rw [List.getElem?_eq_getElem hilen]
    rfl

/-- C7 witness: a Static instant-smoothing parameter with value 3/4 over
`[0,1]`, in both the plain and the sidechained mode. -/
theorem c7_witness :
    (c7Param.lfo_type = LfoType.Static ∧ 1 ≤ c7Param.smooth_value_change) ∧
    ((c7Param.sidechain_enabled = false →
        ∀ (vol : Option (List ℚ)) (i : Nat), i < 2 →
        (animate_parameter zeroFns c7Param 2 44100 0 vol).output.getD i 0 =
          c7Param.value) ∧
      (c7Param.sidechain_enabled = true →
        ∀ (vb : List ℚ) (i : Nat), i < 2 → i < vb.length →
        (animate_parameter zeroFns c7Param 2 44100 0 (some vb)).output.getD i 0 =
          vb.getD i 0 * (c7Param.max - c7Param.min) + c7Param.min)) :=
  ⟨⟨rfl, by norm_num [c7Param, EffectParameter.new]⟩,
    c7_static_instant zeroFns c7Param 2 44100 0 rfl
      (by norm_num [c7Param, EffectParameter.new])⟩

/-- Overwriting a satisfying element with a satisfying element preserves the
filter count. -/
theorem length_filter_set_keep {α : Type} (p : α → Bool) :
    ∀ (l : List α) (i : Nat) (a b : α), l.get? i = some a → p a = true →
      p b = true → ((l.set i b).filter p).length = (l.filter p).length := by
  intro l
  induction l with
  | nil => intro i a b ha _ _; cases i <;> cases ha
  | cons x xs ih =>
    intro i a b ha hpa hpb
    cases i with
    | zero =>
      cases ha
      simp [List.filter_cons, hpa, hpb]
    | succ j =>
      simp only [List.set_cons_succ, List.filter_cons]
      cases hx : p x <;> simp [hx, ih j a b ha hpa hpb]

/-- Overwriting a non-satisfying element with a satisfying element increases
the filter count by one. -/
theorem length_filter_set_add {α : Type} (p : α → Bool) :
    ∀ (l : List α) (i : Nat) (a b : α), l.get? i = some a → p a = false →
      p b = true →
      ((l.set i b).filter p).length = (l.filter p).length + 1 := by
  intro l
  induction l with
  | nil => intro i a b ha _ _; cases i <;> cases ha
  | cons x xs ih =>
    intro i a b ha hpa hpb
    cases i with
    | zero =>
      cases ha
      simp [List.filter_cons, hpa, hpb]
    | succ j =>
      simp only [List.set_cons_succ, List.filter_cons]
      cases hx : p x <;> simp [ih j a b ha hpa hpb]

/-- A successful `position?` points at an element satisfying the predicate. -/
theorem position?_some_get {α : Type} (p : α → Bool) :
    ∀ (l : List α) (i : Nat), position? p l = some i →
      ∃ a, l.get? i = some a ∧ p a = true := by
  intro l
  induction l with
  | nil => intro i h; cases h
  | cons x xs ih =>
    intro i h
    rw [position?] at h
    by_cases hx : p x = true
    · rw [if_pos hx] at h
      cases h
      exact ⟨x, rfl, hx⟩
    · rw [if_neg hx] at h
      rcases hj : position? p xs with _ | j
      · rw [hj] at h; cases h
      · rw [hj] at h
        cases h
        exact ih j hj

/-- `position?` fails exactly when no element satisfies the predicate. -/
theorem position?_eq_none {α : Type} (p : α → Bool) :
    ∀ l : List α, position? p l = none ↔ ∀ a ∈ l, p a = false := by
  intro l
  induction l with
  | nil => simp [position?]
  | cons x xs ih =>
    rw [position?]
    by_cases hx : p x = true
    · rw [if_pos hx]
      simp [hx]
    · rw [if_neg hx]
      have hxf : p x = false := by
        cases hxx : p x
        · rfl
        · exact absurd hxx hx
      constructor
      · intro h a ha
        have hnone : position? p xs = none := by
          rcases hj : position? p xs with _ | j
          · rfl
          · rw [hj] at h; cases h
        rcases List.mem_cons.mp ha with rfl | ha2
        · exact hxf
        · exact ih.mp hnone a ha2
      · intro h
        have h2 : position? p xs = none :=
          ih.mpr (fun a ha => h a (List.mem_cons_of_mem _ ha))
        rw [h2]
        rfl

/-- A filter count strictly below the length exposes a non-satisfying
element. -/
theorem exists_not_of_filter_lt {α : Type} (p : α → Bool) :
    ∀ l : List α, (l.filter p).length < l.length → ∃ a ∈ l, p a = false := by
  intro l
  induction l with
  | nil => intro h; simp at h
  | cons x xs ih =>
    intro h
    cases hx : p x with
    | false => exact ⟨x, by simp, hx⟩
    | true =>
      rw [List.filter_cons, if_pos (by simp [hx])] at h
      simp only [List.length_cons] at h
      obtain ⟨a, ha, hpa⟩ := ih (by omega)
      exact ⟨a, by simp [ha], hpa⟩

/-- `ShapeVoice::start_note` leaves the voice active and holding the new
note. -/
theorem start_note_fields (T : FloatFns) (v : ShapeVoice) (note : Nat)
    (vel : ℚ) (s : ShapeSound) (adsr : Env) (me : Bool) (df : ℚ) :
    ((v.start_note T note vel s adsr me df).1).active = true ∧
    ((v.start_note T note vel s adsr me df).1).note = note :=
  ⟨rfl, rfl⟩

/-- `note_on` with an idle voice available activates it: the active count
goes up by exactly one. -/
theorem note_on_count_lt (T : FloatFns) (syn : Synthesizer) (note : Nat)
    (vel : ℚ) (snd : ShapeSound)
    (h : syn.active_voice_count < syn.num_voices) :
    (Synthesizer.note_on T syn note vel snd).1.active_voice_count =
      syn.active_voice_count + 1 := by
  have hex : ∃ a ∈ syn.voices, a.active = false :=
    exists_not_of_filter_lt (fun v => v.active) syn.voices
      (by simpa [Synthesizer.active_voice_count, Synthesizer.num_voices] using h)
  have hne : Synthesizer.find_free_voice syn ≠ none := by
    intro hnone
    rw [Synthesizer.find_free_voice] at hnone
    have hall := (position?_eq_none _ syn.voices).mp hnone
    obtain ⟨a, ha, hpa⟩ := hex
    have h2 := hall a ha
    simp [hpa] at h2
  obtain ⟨i, hi⟩ := Option.ne_none_iff_exists'.mp hne
  obtain ⟨w, hw, hpw⟩ := position?_some_get _ syn.voices i
    (by rw [← Synthesizer.find_free_voice]; exact hi)
  have hwa : w.active = false := by
    cases hwa : w.active
    · rfl
    · rw [hwa] at hpw; cases hpw
  rw [Synthesizer.note_on, hi]
  dsimp only
  rw [Synthesizer.startVoiceAt, hw]
  dsimp only
  simp only [Synthesizer.active_voice_count]
  exact length_filter_set_add (fun v => v.active) syn.voices i w _ hw hwa
    (start_note_fields T w note vel snd syn.adsr syn.midi_enabled
      syn.default_frequency).1

/-- `note_on` with every voice active steals the first voice: the count is
unchanged and voice 0 ends active on the new note. -/
theorem note_on_steals_head (T : FloatFns) (syn : Synthesizer) (note : Nat)
    (vel : ℚ) (snd : ShapeSound)
    (hall : ∀ v ∈ syn.voices, v.active = true) (hne : syn.voices ≠ []) :
    (Synthesizer.note_on T syn note vel snd).1.active_voice_count =
      syn.active_voice_count ∧
    ∃ w, (Synthesizer.note_on T syn note vel snd).1.voices.get? 0 = some w ∧
      w.active = true ∧ w.note = note := by
  obtain ⟨vs, sr, ad, me, df⟩ := syn
  obtain ⟨v0, rest, rfl⟩ : ∃ v0 rest, vs = v0 :: rest := by
    cases hvv : vs with
    | nil => exact absurd hvv hne
    | cons a l => exact ⟨a, l, rfl⟩
  have hv0 : v0.active = true := hall v0 (by simp)
  have hfree : position? (fun v => !v.active) (v0 :: rest) = none := by
    rw [position?_eq_none]
    intro a ha
    rw [hall a ha]
    rfl
  have hsteal : position? (fun v => v.active) (v0 :: rest) = some 0 := by
    rw [position?, if_pos hv0]
  simp only [Synthesizer.note_on, Synthesizer.find_free_voice, hfree,
    Synthesizer.steal_voice, hsteal, Synthesizer.startVoiceAt, listModify,
    List.get?_cons_zero, List.set_cons_zero]
  constructor
  · simp only [Synthesizer.active_voice_count, List.filter_cons, hv0,
      (start_note_fields T (v0.stop_note false) note vel snd ad me df).1]
    simp
  · exact ⟨_, by simp,
      (start_note_fields T (v0.stop_note false) note vel snd ad me df).1,
      (start_note_fields T (v0.stop_note false) note vel snd ad me df).2⟩

/-- `note_on` preserves the number of voice slots. -/
theorem note_on_num_voices (T : FloatFns) (syn : Synthesizer) (note : Nat)
    (vel : ℚ) (snd : ShapeSound) :
    (Synthesizer.note_on T syn note vel snd).1.num_voices = syn.num_voices := by
  have hstart : ∀ (s : Synthesizer) (i : Nat),
      (Synthesizer.startVoiceAt T s i note vel snd).1.num_voices =
        s.num_voices := by
    intro s i
    rw [Synthesizer.startVoiceAt]
    split
    · simp [Synthesizer.num_voices, List.length_set]
    · rfl
  rw [Synthesizer.note_on]
  split
  · exact hstart syn _
  · rw [hstart]
    rw [Synthesizer.steal_voice]
    split
    · simp only [Synthesizer.num_voices]
      rw [listModify]
      split
      · simp [List.length_set]
      · rfl
    · rfl

/-- `note_on` raises the active count to its min-with-capacity. -/
theorem note_on_count_min (T : FloatFns) (syn : Synthesizer) (note : Nat)
    (vel : ℚ) (snd : ShapeSound) (hne : syn.voices ≠ []) :
    (Synthesizer.note_on T syn note vel snd).1.active_voice_count =
      min (syn.active_voice_count + 1) syn.num_voices := by
  have hle : syn.active_voice_count ≤ syn.num_voices :=
    List.length_filter_le _ _
  by_cases h : syn.active_voice_count < syn.num_voices
  · rw [note_on_count_lt T syn note vel snd h]
    omega
  · have heq : syn.active_voice_count = syn.num_voices := by omega
    have hfe : (syn.voices.filter (fun v => v.active)) = syn.voices :=
      (List.filter_sublist _).eq_of_length heq
    have hall : ∀ v ∈ syn.voices, v.active = true :=
      fun v hv => by
        have := List.filter_eq_self.mp hfe v hv
        exact this
    rw [(note_on_steals_head T syn note vel snd hall hne).1]
    omega

/-- Folding a sequence of NoteOn events: the active count is the initial
count plus the number of events, capped at the pool size. -/
theorem noteOnSeq_count (T : FloatFns) (events : List (Nat × ℚ)) :
    ∀ (syn : Synthesizer) (snd : ShapeSound), syn.voices ≠ [] →
      (Synthesizer.noteOnSeq T syn snd events).1.active_voice_count =
        min (syn.active_voice_count + events.length) syn.num_voices := by
  induction events with
  | nil =>
    intro syn snd _
    have hle : syn.active_voice_count ≤ syn.num_voices :=
      List.length_filter_le _ _
    simp only [Synthesizer.noteOnSeq, List.length_nil]
    omega
  | cons ev rest ih =>
    intro syn snd hne
    have hle : syn.active_voice_count ≤ syn.num_voices :=
      List.length_filter_le _ _
    simp only [Synthesizer.noteOnSeq]
    have hnum := note_on_num_voices T syn ev.1 ev.2 snd
    have hne' : (Synthesizer.note_on T syn ev.1 ev.2 snd).1.voices ≠ [] := by
      intro h
      rw [Synthesizer.num_voices, Synthesizer.num_voices, h] at hnum
      simp at hnum
      cases hv : syn.voices with
      | nil => exact hne hv
      | cons a l => rw [hv] at hnum; simp at hnum
    rw [ih _ _ hne', note_on_count_min T syn ev.1 ev.2 snd hne, hnum]
    simp only [List.length_cons]
    omega

/-- C3: a Synthesizer's `active_voice_count` never exceeds its number of
voice slots; starting from all voices idle, N+1 `note_on` events leave
exactly N voices active (stealing occurred, no overflow); and when no idle
voice exists, `note_on` steals the first voice — stopping it without
tail-off and restarting it active on the new note. -/
theorem c3_voice_pool (T : FloatFns) (syn : Synthesizer) (snd : ShapeSound)
    (events : List (Nat × ℚ)) (note : Nat) (vel : ℚ)
    (hidle : ∀ v ∈ syn.voices, v.active = false)
    (hne : syn.voices ≠ [])
    (hlen : events.length = syn.num_voices + 1) :
    (∀ s : Synthesizer, s.active_voice_count ≤ s.num_voices) ∧
    (Synthesizer.noteOnSeq T syn snd events).1.active_voice_count =
      syn.num_voices ∧
    (∀ (s : Synthesizer) (snd2 : ShapeSound),
      (∀ v ∈ s.voices, v.active = true) → s.voices ≠ [] →
      ∃ w, (Synthesizer.note_on T s note vel snd2).1.voices.get? 0 = some w ∧
        w.active = true ∧ w.note = note) := by
  refine ⟨fun s => List.length_filter_le _ _, ?_, ?_⟩
  · have h0 : syn.active_voice_count = 0 := by
      simp only [Synthesizer.active_voice_count]
      rw [List.filter_eq_nil_iff.mpr (fun a ha => by simp [hidle a ha])]
      rfl
    rw [noteOnSeq_count T events syn snd hne, h0, hlen]
    omega
  · intro s snd2 hall hne2
    exact (note_on_steals_head T s note vel snd2 hall hne2).2

/-- C3 witness: a two-voice pool, three NoteOn events. -/
theorem c3_witness :
    ((∀ v ∈ c3Synth.voices, v.active = false) ∧ c3Synth.voices ≠ [] ∧
      c3Events.length = c3Synth.num_voices + 1) ∧
    ((∀ s : Synthesizer, s.active_voice_count ≤ s.num_voices) ∧
      (Synthesizer.noteOnSeq zeroFns c3Synth ShapeSound.new
          c3Events).1.active_voice_count = c3Synth.num_voices ∧
      (∀ (s : Synthesizer) (snd2 : ShapeSound),
        (∀ v ∈ s.voices, v.active = true) → s.voices ≠ [] →
        ∃ w, (Synthesizer.note_on zeroFns s 69 1 snd2).1.voices.get? 0 =
            some w ∧ w.active = true ∧ w.note = 69)) := by
  have h1 : ∀ v ∈ c3Synth.voices, v.active = false := by
    intro v hv
    simp only [c3Synth, Synthesizer.new] at hv
    rw [List.eq_of_mem_replicate hv]
    rfl
  have h2 : c3Synth.voices ≠ [] := by
    simp [c3Synth, Synthesizer.new, List.replicate]
  have h3 : c3Events.length = c3Synth.num_voices + 1 := by
    simp [c3Events, c3Synth, Synthesizer.new, Synthesizer.num_voices]
  exact ⟨⟨h1, h2, h3⟩,
    c3_voice_pool zeroFns c3Synth ShapeSound.new c3Events 69 1 h1 h2 h3⟩

/-- `clearPrefix` preserves the buffer length. -/
theorem length_clearPrefix : ∀ (n : Nat) (l : List ℚ),
    (Synthesizer.clearPrefix n l).length = l.length := by
  intro n
  induction n with
  | zero => intro l; rfl
  | succ m ih =>
    intro l
    cases l with
    | nil => rfl
    | cons x xs => simp [Synthesizer.clearPrefix, ih xs]

/-- Entry `i` of a cleared buffer: zero below the cleared prefix, untouched
beyond it. -/
theorem getD_clearPrefix : ∀ (n : Nat) (l : List ℚ) (i : Nat),
    (Synthesizer.clearPrefix n l).getD i 0 =
      if i < n ∧ i < l.length then 0 else l.getD i 0 := by
  intro n
  induction n with
  | zero => intro l i; simp [Synthesizer.clearPrefix]
  | succ m ih =>
    intro l i
    cases l with
    | nil => simp [Synthesizer.clearPrefix]
    | cons x xs =>
      cases i with
      | zero => simp [Synthesizer.clearPrefix]
      | succ j =>
        simp only [Synthesizer.clearPrefix, List.getD_cons_succ, ih xs j,
          List.length_cons]
        by_cases h : j < m ∧ j < xs.length
        · rw [if_pos h, if_pos (by omega)]
        · rw [if_neg h, if_neg (by omega)]

/-- `mixPrefix` preserves the output buffer length. -/
theorem length_mixPrefix : ∀ (c g o : List ℚ),
    (ShapeVoice.mixPrefix c g o).length = o.length := by
  intro c
  induction c with
  | nil => intro g o; cases g <;> cases o <;> rfl
  | cons a cs ih =>
    intro g o
    cases g with
    | nil => rfl
    | cons b gs =>
      cases o with
      | nil => rfl
      | cons x os => simp [ShapeVoice.mixPrefix, ih gs os]

/-- Entry `i` of a mixed buffer: the original entry plus the gained
contribution where both the contribution and gain blocks cover `i`. -/
theorem getD_mixPrefix : ∀ (c g o : List ℚ) (i : Nat), i < o.length →
    (ShapeVoice.mixPrefix c g o).getD i 0 =
      o.getD i 0 +
        (if i < c.length ∧ i < g.length then c.getD i 0 * g.getD i 0
         else 0) := by
  intro c
  induction c with
  | nil => intro g o i hi; simp [ShapeVoice.mixPrefix]
  | cons a cs ih =>
    intro g o i hi
    cases g with
    | nil => simp [ShapeVoice.mixPrefix]
    | cons b gs =>
      cases o with
      | nil => simp at hi
      | cons x os =>
        cases i with
        | zero => simp [ShapeVoice.mixPrefix]
        | succ j =>
          simp only [ShapeVoice.mixPrefix, List.getD_cons_succ,
            List.length_cons]
          rw [ih gs os j (by simpa using hi)]
          by_cases h : j < cs.length ∧ j < gs.length
          · rw [if_pos h, if_pos (by omega)]
          · rw [if_neg h, if_neg (by omega)]

/-- Mixing the same contribution and gains into prefix-agreeing buffers
preserves prefix agreement. -/
theorem BufAgree_mixPrefix (n : Nat) (c g o1 o2 : List ℚ)
    (h : BufAgree n o1 o2) :
    BufAgree n (ShapeVoice.mixPrefix c g o1) (ShapeVoice.mixPrefix c g o2) := by
  obtain ⟨h1, h2, h3⟩ := h
  refine ⟨by rw [length_mixPrefix]; exact h1,
    by rw [length_mixPrefix]; exact h2, ?_⟩
  intro i hi
  rw [getD_mixPrefix c g o1 i (lt_of_lt_of_le hi h1),
    getD_mixPrefix c g o2 i (lt_of_lt_of_le hi h2), h3 i hi]

/-- Clearing the first `n` entries of two long-enough buffers makes them
agree on that prefix. -/
theorem BufAgree_clearPrefix (n : Nat) (o1 o2 : List ℚ)
    (h1 : n ≤ o1.length) (h2 : n ≤ o2.length) :
    BufAgree n (Synthesizer.clearPrefix n o1) (Synthesizer.clearPrefix n o2) := by
  refine ⟨by rw [length_clearPrefix]; exact h1,
    by rw [length_clearPrefix]; exact h2, ?_⟩
  intro i hi
  rw [getD_clearPrefix, getD_clearPrefix,
    if_pos ⟨hi, lt_of_lt_of_le hi h1⟩, if_pos ⟨hi, lt_of_lt_of_le hi h2⟩]

/-- A voice's `render_next_block` reads the output buffers only in the final
additive mix, so runs from the same voice/sound state on prefix-agreeing
buffers stay in lockstep: same failure behaviour, identical updated state,
prefix-agreeing outputs. -/
theorem render_next_block_agree (T : FloatFns) (fuel : Nat) (v : ShapeVoice)
    (n : Nat) (s : ShapeSound) (midi : Bool) (df : ℚ)
    (o1x o1y o1z o2x o2y o2z : List ℚ)
    (hx : BufAgree n o1x o2x) (hy : BufAgree n o1y o2y)
    (hz : BufAgree n o1z o2z) :
    renderAgree n (v.render_next_block T fuel o1x o1y o1z n s midi df)
      (v.render_next_block T fuel o2x o2y o2z n s midi df) := by
  rw [ShapeVoice.render_next_block, ShapeVoice.render_next_block]
  by_cases hact : v.active = false
  · rw [if_pos hact, if_pos hact]
    exact ⟨rfl, rfl, hx, hy, hz⟩
  · rw [if_neg hact, if_neg hact]
    rcases hc : ShapeVoice.renderCore T fuel v n s midi df with _ | res
    · simp [renderAgree]
    · dsimp only
      exact ⟨rfl, rfl,
        BufAgree_mixPrefix n _ _ o1x o2x hx,
        BufAgree_mixPrefix n _ _ o1y o2y hy,
        BufAgree_mixPrefix n _ _ o1z o2z hz⟩

/-- The synthesizer's voice loop preserves prefix agreement of the running
output buffers, voice by voice. -/
theorem renderVoices_agree (T : FloatFns) (fuel : Nat) (midi : Bool)
    (df : ℚ) (n : Nat) :
    ∀ (vs : List ShapeVoice) (s : ShapeSound)
      (o1x o1y o1z o2x o2y o2z : List ℚ),
      BufAgree n o1x o2x → BufAgree n o1y o2y → BufAgree n o1z o2z →
      renderAgree n
        (Synthesizer.renderVoices T fuel midi df n vs s o1x o1y o1z)
        (Synthesizer.renderVoices T fuel midi df n vs s o2x o2y o2z) := by
  intro vs
  induction vs with
  | nil =>
    intro s o1x o1y o1z o2x o2y o2z hx hy hz
    exact ⟨rfl, rfl, hx, hy, hz⟩
  | cons v rest ih =>
    intro s o1x o1y o1z o2x o2y o2z hx hy hz
    rw [Synthesizer.renderVoices, Synthesizer.renderVoices]
    have h1 := render_next_block_agree T fuel v n s midi df o1x o1y o1z
      o2x o2y o2z hx hy hz
    by_cases hact : v.active = true
    · rw [if_pos hact, if_pos hact]
      rcases hr1 : v.render_next_block T fuel o1x o1y o1z n s midi df
        with _ | r1 <;>
        rcases hr2 : v.render_next_block T fuel o2x o2y o2z n s midi df
          with _ | r2
      · trivial
      · rw [hr1, hr2] at h1; simp [renderAgree] at h1
      · rw [hr1, hr2] at h1; simp [renderAgree] at h1
      · rw [hr1, hr2] at h1
        obtain ⟨vs1, s1, a1, b1, c1⟩ := r1
        obtain ⟨vs2, s2, a2, b2, c2⟩ := r2
        obtain ⟨he1, he2, hax, hay, haz⟩ := h1
        dsimp only at he1 he2 hax hay haz ⊢
        subst he1
        subst he2
        have h2 := ih s1 a1 b1 c1 a2 b2 c2 hax hay haz
        rcases hq1 : Synthesizer.renderVoices T fuel midi df n rest s1
          a1 b1 c1 with _ | q1 <;>
          rcases hq2 : Synthesizer.renderVoices T fuel midi df n rest s1
            a2 b2 c2 with _ | q2
        · trivial
        · rw [hq1, hq2] at h2; simp [renderAgree] at h2
        · rw [hq1, hq2] at h2; simp [renderAgree] at h2
        · rw [hq1, hq2] at h2
          obtain ⟨ws1, t1, d1, e1, f1⟩ := q1
          obtain ⟨ws2, t2, d2, e2, f2⟩ := q2
          obtain ⟨hf1, hf2, hbx, hby, hbz⟩ := h2
          dsimp only at hf1 hf2 hbx hby hbz ⊢
          subst hf1
          subst hf2
          exact ⟨rfl, rfl, hbx, hby, hbz⟩
    · rw [if_neg hact, if_neg hact]
      have h2 := ih s o1x o1y o1z o2x o2y o2z hx hy hz
      rcases hq1 : Synthesizer.renderVoices T fuel midi df n rest s
        o1x o1y o1z with _ | q1 <;>
        rcases hq2 : Synthesizer.renderVoices T fuel midi df n rest s
          o2x o2y o2z with _ | q2
      · trivial
      · rw [hq1, hq2] at h2; simp [renderAgree] at h2
      · rw [hq1, hq2] at h2; simp [renderAgree] at h2
      · rw [hq1, hq2] at h2
        obtain ⟨ws1, t1, d1, e1, f1⟩ := q1
        obtain ⟨ws2, t2, d2, e2, f2⟩ := q2
        obtain ⟨hf1, hf2, hbx, hby, hbz⟩ := h2
        dsimp only at hf1 hf2 hbx hby hbz ⊢
        subst hf1
        subst hf2
        exact ⟨rfl, rfl, hbx, hby, hbz⟩

/-- C9: `Synthesizer::render_next_block` fully overwrites the first
`num_samples` entries of the three output buffers — it clears them and then
only adds voice contributions computed independently of the buffers — so for
any two initial buffer contents (long enough for the block), runs from
identical synthesizer and sound state produce identical contents at every
index below `num_samples` (and identical final states). -/
theorem c9_render_overwrites (T : FloatFns) (fuel : Nat) (syn : Synthesizer)
    (snd : ShapeSound) (n : Nat) (o1x o1y o1z o2x o2y o2z : List ℚ)
    (hx1 : n ≤ o1x.length) (hy1 : n ≤ o1y.length) (hz1 : n ≤ o1z.length)
    (hx2 : n ≤ o2x.length) (hy2 : n ≤ o2y.length) (hz2 : n ≤ o2z.length) :
    renderAgree n
      (Synthesizer.render_next_block T fuel syn o1x o1y o1z n snd)
      (Synthesizer.render_next_block T fuel syn o2x o2y o2z n snd) := by
  rw [Synthesizer.render_next_block, Synthesizer.render_next_block]
  have hagree := renderVoices_agree T fuel syn.midi_enabled
    syn.default_frequency n syn.voices snd
    (Synthesizer.clearPrefix n o1x) (Synthesizer.clearPrefix n o1y)
    (Synthesizer.clearPrefix n o1z) (Synthesizer.clearPrefix n o2x)
    (Synthesizer.clearPrefix n o2y) (Synthesizer.clearPrefix n o2z)
    (BufAgree_clearPrefix n o1x o2x hx1 hx2)
    (BufAgree_clearPrefix n o1y o2y hy1 hy2)
    (BufAgree_clearPrefix n o1z o2z hz1 hz2)
  rcases hq1 : Synthesizer.renderVoices T fuel syn.midi_enabled
    syn.default_frequency n syn.voices snd (Synthesizer.clearPrefix n o1x)
    (Synthesizer.clearPrefix n o1y) (Synthesizer.clearPrefix n o1z)
    with _ | q1 <;>
    rcases hq2 : Synthesizer.renderVoices T fuel syn.midi_enabled
      syn.default_frequency n syn.voices snd (Synthesizer.clearPrefix n o2x)
      (Synthesizer.clearPrefix n o2y) (Synthesizer.clearPrefix n o2z)
      with _ | q2
  · trivial
  · rw [hq1, hq2] at hagree; simp [renderAgree] at hagree
  · rw [hq1, hq2] at hagree; simp [renderAgree] at hagree
  · rw [hq1, hq2] at hagree
    obtain ⟨ws1, t1, d1, e1, f1⟩ := q1
    obtain ⟨ws2, t2, d2, e2, f2⟩ := q2
    obtain ⟨hf1, hf2, hbx, hby, hbz⟩ := hagree
    dsimp only at hf1 hf2 hbx hby hbz ⊢
    subst hf1
    subst hf2
    exact ⟨rfl, rfl, hbx, hby, hbz⟩

/-- C9 witness: a voiceless synthesizer over one-sample buffers with
different initial contents. -/
theorem c9_witness :
    ((1 : Nat) ≤ [(5 : ℚ)].length ∧ (1 : Nat) ≤ [(6 : ℚ)].length ∧
      (1 : Nat) ≤ [(7 : ℚ)].length ∧ (1 : Nat) ≤ [(8 : ℚ)].length ∧
      (1 : Nat) ≤ [(9 : ℚ)].length ∧ (1 : Nat) ≤ [(10 : ℚ)].length) ∧
    renderAgree 1
      (Synthesizer.render_next_block zeroFns 1 (Synthesizer.new 0 44100)
        [(5 : ℚ)] [(6 : ℚ)] [(7 : ℚ)] 1 ShapeSound.new)
      (Synthesizer.render_next_block zeroFns 1 (Synthesizer.new 0 44100)
        [(8 : ℚ)] [(9 : ℚ)] [(10 : ℚ)] 1 ShapeSound.new) :=
  ⟨⟨by simp, by simp, by simp, by simp, by simp, by simp⟩,
    c9_render_overwrites zeroFns 1 (Synthesizer.new 0 44100) ShapeSound.new 1
      [(5 : ℚ)] [(6 : ℚ)] [(7 : ℚ)] [(8 : ℚ)] [(9 : ℚ)] [(10 : ℚ)]
      (by simp) (by simp) (by simp) (by simp) (by simp) (by simp)⟩

/-- C1 counterexample: on the one-stage linear envelope from level 0 to 1
over 1 second, `lookup(2)` — with `2 ≥ Σtimes = 1` — returns `2`, the linear
extrapolation past the end, not the last level `1` as claimed. -/
theorem c1_counterexample :
    c1Env.times.sum ≤ 2 ∧
    Env.lookup zeroFns c1Env 2 = 2 ∧
    c1Env.levels.getLastD 0 = 1 ∧ (2 : ℚ) ≠ 1 := by
  refine ⟨by norm_num [c1Env, Env.new], ?_, by norm_num [c1Env, Env.new],
    by norm_num⟩
  have hs : stageSearch 2 [(1 : ℚ)] 0 0 0 = (0, 1, 1) := by
    norm_num [stageSearch]
  rw [Env.lookup]
  norm_num [c1Env, Env.new, hs, curveValue, EnvCurve.linear, linlin]
  rfl

/-- C1 witness: the amended endpoints hold on the concrete one-stage linear
envelope. -/
theorem c1_witness :
    (c1Env.levels.length = c1Env.times.length + 1 ∧ c1Env.times ≠ [] ∧
      (∀ t ∈ c1Env.times, 0 < t) ∧ (∀ c ∈ c1Env.curves, c = EnvCurve.linear)) ∧
    (Env.lookup zeroFns c1Env 0 = c1Env.levels.getD 0 0 ∧
      Env.lookup zeroFns c1Env c1Env.times.sum = c1Env.levels.getLastD 0) :=
  ⟨⟨by simp [c1Env, Env.new], by simp [c1Env, Env.new],
      by norm_num [c1Env, Env.new], by simp [c1Env, Env.new]⟩,
    c1_lookup_boundaries zeroFns c1Env (by simp [c1Env, Env.new])
      (by simp [c1Env, Env.new]) (by norm_num [c1Env, Env.new])
      (by simp [c1Env, Env.new])⟩

/-- `get?` is `some` below the length. -/
theorem get?_isSome_of_lt {α : Type} (l : List α) (i : Nat)
    (h : i < l.length) : (l.get? i).isSome = true := by
  rw [List.get?_eq_get h]
  rfl

/-- The accumulation loop's final stage index never exceeds the starting
index plus the number of remaining stages. -/
theorem stageSearch_idx_le (time : ℚ) :
    ∀ (l : List ℚ) (last acc : ℚ) (idx : Nat),
      (stageSearch time l last acc idx).2.2 ≤ idx + l.length := by
  intro l
  induction l with
  | nil => intro last acc idx; simp [stageSearch]
  | cons t rest ih =>
    intro last acc idx
    simp only [stageSearch]
    split
    · have := ih acc (acc + t) (idx + 1)
      simp only [List.length_cons]
      omega
    · simp

/-- The accumulation loop's final stage index never decreases. -/
theorem stageSearch_idx_ge (time : ℚ) :
    ∀ (l : List ℚ) (last acc : ℚ) (idx : Nat),
      idx ≤ (stageSearch time l last acc idx).2.2 := by
  intro l
  induction l with
  | nil => intro last acc idx; simp [stageSearch]
  | cons t rest ih =>
    intro last acc idx
    simp only [stageSearch]
    split
    · have := ih acc (acc + t) (idx + 1)
      omega
    · simp

/-- With a positive lookup time and at least one stage, the loop runs at
least once, so the final stage index is at least 1. -/
theorem stageSearch_one_le (time : ℚ) (l : List ℚ) (h : l ≠ [])
    (ht : 0 < time) : 1 ≤ (stageSearch time l 0 0 0).2.2 := by
  cases l with
  | nil => cases h rfl
  | cons t rest =>
    simp only [stageSearch]
    rw [if_pos ht]
    exact le_trans (by omega) (stageSearch_idx_ge time rest 0 (0 + t) 1)

/-- C10: for an envelope with `levels.len() = times.len() + 1` and non-empty
`curves`, `Env::lookup` never indexes out of bounds at any time: the fallible
rendering `lookupChecked` always returns `some`, and on the main path the
stage index satisfies `1 ≤ stage_index ≤ times.len()` (so
`levels[stage_index-1]`, `levels[stage_index]` and
`curves[(stage_index-1) % curves.len()]` are all in bounds).  `Env::new`
performs no validation, so this precondition is the caller's obligation. -/
theorem c10_lookup_no_oob (T : FloatFns) (env : Env) (time : ℚ)
    (hL : env.levels.length = env.times.length + 1)
    (hc : env.curves ≠ []) :
    (env.lookupChecked T time).isSome = true ∧
    (0 < time → env.times ≠ [] →
      1 ≤ (stageSearch time env.times 0 0 0).2.2 ∧
      (stageSearch time env.times 0 0 0).2.2 ≤ env.times.length) := by
  have hlev : ¬ env.levels.length < 1 := by omega
  have hcl : 1 ≤ env.curves.length := by
    cases hcc : env.curves with
    | nil => cases hc hcc
    | cons a l => simp
  constructor
  · rw [Env.lookupChecked]
    rw [if_neg hlev]
    by_cases h0 : time ≤ 0 ∨ env.times.length = 0
    · rw [if_pos h0]
      exact get?_isSome_of_lt env.levels 0 (by omega)
    · rw [if_neg h0]
      push_neg at h0
      have hidx1 : 1 ≤ (stageSearch time env.times 0 0 0).2.2 :=
        stageSearch_one_le time env.times
          (fun h => h0.2 (by rw [h]; rfl)) h0.1
      have hidx2 : (stageSearch time env.times 0 0 0).2.2 ≤
          env.times.length := by
        have := stageSearch_idx_le time env.times 0 0 0
        omega
      rw [if_neg (by omega)]
      have h3 : (stageSearch time env.times 0 0 0).2.2 - 1 <
          env.levels.length := by omega
      have h4 : (stageSearch time env.times 0 0 0).2.2 <
          env.levels.length := by omega
      rw [List.get?_eq_get h3, List.get?_eq_get h4]
      have h5 : ((stageSearch time env.times 0 0 0).2.2 - 1) %
          max env.curves.length 1 < env.curves.length := by
        have : max env.curves.length 1 = env.curves.length := by omega
        rw [this]
        exact Nat.mod_lt _ (by omega)
      dsimp only
      rw [List.get?_eq_get h5]
      split
      · split <;> rfl
      · rename_i heq
        cases heq
  · intro ht hne
    refine ⟨stageSearch_one_le time env.times hne ht, ?_⟩
    have := stageSearch_idx_le time env.times 0 0 0
    omega

/-- C10 witness on the concrete well-formed envelope `c1Env` at `time = 1/2`. -/
theorem c10_witness :
    (c1Env.levels.length = c1Env.times.length + 1 ∧ c1Env.curves ≠ []) ∧
    ((c1Env.lookupChecked zeroFns (1 / 2)).isSome = true ∧
      (0 < (1 / 2 : ℚ) → c1Env.times ≠ [] →
        1 ≤ (stageSearch (1 / 2) c1Env.times 0 0 0).2.2 ∧
        (stageSearch (1 / 2) c1Env.times 0 0 0).2.2 ≤ c1Env.times.length)) :=
  ⟨⟨by simp [c1Env, Env.new], by simp [c1Env, Env.new]⟩,
    c10_lookup_no_oob zeroFns c1Env (1 / 2) (by simp [c1Env, Env.new])
      (by simp [c1Env, Env.new])⟩

/-- C2: the claim promises termination of the arc-length skip loop for every
frame, but on a frame consisting only of zero-length shapes (here a single
`PointShape`) `increment_with` with the voice's floor increment
`MIN_LENGTH_INCREMENT` never returns: the loop guard
`shape_drawn > length` stays true forever, so the fuelled loop fails at
every fuel. -/
theorem c2_skip_loop_divergence (fuel : Nat) :
    ShapeRenderer.increment_with fuel c2Renderer MIN_LENGTH_INCREMENT =
      none := by
  rw [ShapeRenderer.increment_with]
  norm_num [c2Renderer, ShapeRenderer.set_shapes, total_length, shapeLengthAt]
  split
  · rfl
  · next sd cur heq =>
    have hl : (pointShapeM Point.zero).length = 0 := rfl
    rw [hl] at heq
    rw [skipLoop_allzero_stuck (pointShapeM Point.zero) rfl fuel
      MIN_LENGTH_INCREMENT (by norm_num [MIN_LENGTH_INCREMENT])] at heq
    cases heq

end Osci
